import Mathlib

/-!
# floauth: command-line OAuth2 authorization-code flow

A shallow embedding of `flow.go` and `token_file_cache.go`.

* Go pointers that may be nil (`*oauth2.Token`, `*TokenFileCache`) are `Option`s.
* Go `error` values are strings; a `(value, error)` result is an `Except`.
* The collaborators outside the repository (the `oauth2` library, `net.Listen`,
  `os/exec`, `os.Create`) are fields of an environment `Env`; the file system is a map
  from names to contents, and `encoding/gob` is modelled by what it transmits of a token
  (the exported fields).
* `ExecuteFlow` runs two kinds of goroutines (the foreground flow and the request
  handlers started by `http.Serve`); it is embedded as a transition system whose
  scheduler picks the next action, and every effect is appended to a trace.
-/

namespace Floauth

/-! ## Data model -/

/-- Go `error` values. -/
abbrev Error := String

/-- The type `oauth2.Token`: its exported fields (access value, token type, refresh value,
expiry timestamp) and its unexported field `raw`, the further values of the server's
response (what `Extra` reads), empty in the zero value. -/
structure Token where
  AccessToken : String
  TokenType : String
  RefreshToken : String
  Expiry : Int
  raw : List (String × String)
deriving DecidableEq, Repr

/-- The fields of `oauth2.Config`; `ExecuteFlow` writes `RedirectURL` only. -/
structure Config where
  ClientID : String
  ClientSecret : String
  AuthURL : String
  TokenURL : String
  RedirectURL : String
  Scopes : List String
deriving DecidableEq, Repr

/-- Messages of `flow.go`, lines 18-25. -/
def visitMessage : String := "Visit the URL below to authenticate this program:"
def openedMessage : String := "Your browser has been opened to an authorization URL:"
def resumeMessage : String := "This program will resume once authenticated."
def closeMessage : String := "You may now close this browser window."
def defaultAddr : String := "localhost:0"

/-- The type `TokenFileCache` of `token_file_cache.go`: the name of the cache file. -/
structure TokenFileCache where
  name : String
deriving DecidableEq, Repr

def NewTokenFileCache (name : String) : TokenFileCache := ⟨name⟩

/-- The struct `options` of `flow.go`. -/
structure options where
  tok : Option Token
  addr : String
  filecache : Option TokenFileCache
  noBrowser : Bool
deriving DecidableEq, Repr

/-- The values of the Go type `Option` (`func(o *options)`) that a caller can build: the
type `options` is unexported, so the four constructors of `flow.go` are the only
sources of such functions. -/
inductive FlowOption where
  | WithNoBrowser
  | WithExistingToken (tok : Option Token)
  | WithTokenFileCache (name : String)
  | WithFixedAddr (addr : String)
deriving DecidableEq, Repr

/-- The body of the closure each constructor returns, as a function on `options`. -/
def FlowOption.apply : FlowOption → options → options
  | .WithNoBrowser, o => { o with noBrowser := true }
  | .WithExistingToken tok, o => { o with tok := tok }
  | .WithTokenFileCache name, o => { o with filecache := some (NewTokenFileCache name) }
  | .WithFixedAddr addr, o => { o with addr := addr }

/-- The zero value `&options{}`. -/
def options.zero : options :=
  { tok := none, addr := "", filecache := none, noBrowser := false }

/-- The function `processOpts`: start from the zero value with `addr = defaultAddr`
and run the options in order. -/
def processOpts (o : List FlowOption) : options :=
  o.foldl (fun out opt => opt.apply out) { options.zero with addr := defaultAddr }

/-! ### What an option sets -/

/-- The token an option stores in `options.tok`, if it sets that field. -/
def FlowOption.setsTok : FlowOption → Option (Option Token)
  | .WithExistingToken tok => some tok
  | _ => none

/-- The address an option stores in `options.addr`, if it sets that field. -/
def FlowOption.setsAddr : FlowOption → Option String
  | .WithFixedAddr addr => some addr
  | _ => none

/-- The cache an option stores in `options.filecache`, if it sets that field. -/
def FlowOption.setsFilecache : FlowOption → Option TokenFileCache
  | .WithTokenFileCache name => some (NewTokenFileCache name)
  | _ => none

/-- The value given by the last element of `os` that sets a field, or `dflt` when no
element sets it. -/
def lastSet {α : Type} (sets : FlowOption → Option α) (os : List FlowOption) (dflt : α) : α :=
  ((os.filterMap sets).getLast?).getD dflt

/-! ## Collaborators outside the repository -/

/-- The file system: a file name either has contents (a byte string) or does not exist. -/
abbrev FileSystem := String → Option (List Nat)

/-- The file system after `name` was created or truncated and `bytes` were written to it. -/
def FileSystem.write (fs : FileSystem) (name : String) (bytes : List Nat) : FileSystem :=
  fun n => if n = name then some bytes else fs n

/-- What the code calls outside the repository. The context argument `ctx` of the Go
calls is passed as the flag saying whether it has been cancelled. -/
structure Env where
  /-- The error the gob encoder meets in encoding the value of a token (such as one of
  `Expiry.MarshalBinary`), `none` when the value encodes. -/
  gobValueErr : Token → Option Error
  /-- The error of `os.Create(name)`, `none` when the file is created or truncated. -/
  osCreate : String → Option Error
  /-- `net.Listen("tcp", addr)`: on success `l.Addr().String()` of the listener. -/
  netListen : String → Except Error String
  /-- The constant `runtime.GOOS`. -/
  GOOS : String
  /-- The error of `exec.Command(name, arg).Start()`. -/
  cmdStart : String → String → Option Error
  /-- `config.AuthCodeURL("", oauth2.AccessTypeOffline)`. -/
  AuthCodeURL : Config → String
  /-- `config.Exchange(ctx, code)`. -/
  Exchange : Config → Bool → String → Except Error Token
  /-- `config.TokenSource(ctx, tok).Token()`. -/
  TokenSource : Config → Bool → Token → Except Error Token

/-- The value `config.Client(ctx, tok)`: an HTTP client that authenticates with `tok`. -/
structure HTTPClient where
  config : Config
  tok : Token
deriving DecidableEq, Repr

/-- An HTTP request as the handler sees it: its parsed form values (query parameters). -/
structure Request where
  form : List (String × String)
deriving DecidableEq, Repr

/-- `r.FormValue(key)`: the first value of `key`, the empty string when there is none. -/
def Request.FormValue (r : Request) (key : String) : String :=
  match r.form.lookup key with
  | some v => v
  | none => ""

/-! ## encoding/gob on a token -/

/-- A byte encoding of a string: its length, then its characters. -/
def encodeString (s : String) : List Nat :=
  s.length :: s.toList.map Char.toNat

/-- Read a string written by `encodeString` from the front of `b`. -/
def decodeString (b : List Nat) : Option (String × List Nat) :=
  match b with
  | [] => none
  | n :: rest =>
    if rest.length < n then none
    else some (String.mk ((rest.take n).map Char.ofNat), rest.drop n)

/-- Stands for the type descriptor messages the gob encoder sends before the first value
of a stream. -/
def gobTypes : List Nat := [64, 255, 129, 3, 1, 1, 5]

/-- The gob message of the value of a token. Gob transmits the exported fields of a struct
only: the three strings, then sign and magnitude of the expiry; `raw` is not in it. -/
def gobValue (t : Token) : List Nat :=
  encodeString t.AccessToken ++ (encodeString t.TokenType ++ (encodeString t.RefreshToken ++
    [if t.Expiry < 0 then 1 else 0, t.Expiry.natAbs]))

/-- `gob.NewEncoder(f).Encode(tok)` on a non-nil token: the bytes written to `f`, and the
error. The type descriptors are written before the value is encoded, so they are in the
file also when encoding the value fails. -/
def gobEncode (env : Env) (tok : Token) : List Nat × Option Error :=
  match env.gobValueErr tok with
  | some err => (gobTypes, some err)
  | none => (gobTypes ++ gobValue tok, none)

/-- Read the value of a token from a gob message into `new(oauth2.Token)`: the exported
fields are set and `raw` keeps its zero value. -/
def gobDecodeValue (b : List Nat) : Except Error Token :=
  match decodeString b with
  | none => .error "unexpected EOF"
  | some (access, b1) =>
    match decodeString b1 with
    | none => .error "unexpected EOF"
    | some (type, b2) =>
      match decodeString b2 with
      | none => .error "unexpected EOF"
      | some (refresh, b3) =>
        match b3 with
        | sign :: m :: _ =>
          .ok { AccessToken := access, TokenType := type, RefreshToken := refresh,
                Expiry := if sign = 1 then -(m : Int) else (m : Int), raw := [] }
        | _ => .error "unexpected EOF"

/-- `gob.NewDecoder(f).Decode(tok)` on a file holding bytes `b`, with `tok` a new token. -/
def gobDecode (b : List Nat) : Except Error Token :=
  if b.take gobTypes.length = gobTypes then gobDecodeValue (b.drop gobTypes.length)
  else .error "EOF"

/-! ## token_file_cache.go -/

/-- The method `(*TokenFileCache).Token`: open the file, decode a token from it. -/
def TokenFileCache.Token (_env : Env) (fs : FileSystem) (c : TokenFileCache) :
    Except Error Token :=
  match fs c.name with
  | none => .error ("open " ++ c.name ++ ": no such file or directory")
  | some bytes =>
    match gobDecode bytes with
    | .error err => .error err
    | .ok tok => .ok tok

/-- The method `(*TokenFileCache).Write` on a non-nil token: create (truncate) the file
and encode the token into it; what the encoder wrote is in the file also when it fails.
Returns the error and the file system afterwards. -/
def TokenFileCache.Write (env : Env) (fs : FileSystem) (c : TokenFileCache)
    (tok : Floauth.Token) :
    Option Error × FileSystem :=
  match env.osCreate c.name with
  | some err => (some err, fs)
  | none => ((gobEncode env tok).2, fs.write c.name (gobEncode env tok).1)

/-! ## flow.go: effects -/

/-- The observable effects of `Client` and `ExecuteFlow`, in the order they happen. -/
inductive Event where
  /-- `o.filecache.Token()` was called; `ok` says whether it returned a token. -/
  | cacheRead (name : String) (ok : Bool)
  /-- `o.filecache.Write(tok)` was called. -/
  | cacheWrite (name : String) (tok : Token)
  /-- `config.TokenSource(ctx, tok).Token()` was called. -/
  | tokenSource (tok : Token)
  /-- `net.Listen("tcp", addr)` was called; `bound` is the listener's address. -/
  | listen (addr : String) (bound : Option String)
  /-- `l.Close()` ran. -/
  | close
  /-- `go http.Serve(l, handler)` started. -/
  | serve
  /-- `config.AuthCodeURL` was called on this configuration. -/
  | authCodeURL (cfg : Config)
  /-- `exec.Command(name, arg).Start()` ran. -/
  | start (name : String) (arg : String)
  /-- Text written to `os.Stderr`. -/
  | stderr (text : String)
  /-- A handler wrote this body to its response. -/
  | respond (body : String)
  /-- `config.Exchange(ctx, code)` was called on this configuration. -/
  | exchange (cfg : Config) (code : String)
deriving DecidableEq, Repr

/-- The function `openURL`: the platform's launcher, or an error on other platforms. -/
def openURL (env : Env) (url : String) : Option Error × List Event :=
  if env.GOOS = "linux" then (env.cmdStart "xdg-open" url, [.start "xdg-open" url])
  else if env.GOOS = "windows" then (env.cmdStart "rundll32" url, [.start "rundll32" url])
  else if env.GOOS = "darwin" then (env.cmdStart "open" url, [.start "open" url])
  else (some ("Cannot open URL " ++ url ++ " on this platform"), [])

/-! ## flow.go: ExecuteFlow as a transition system -/

deriving instance DecidableEq for Except

/-- Where the foreground goroutine of `ExecuteFlow` stands. -/
inductive PC where
  /-- At line 97, nothing executed yet. -/
  | entry
  /-- Before `net.Listen` (line 104). -/
  | listen
  /-- The listener `l` is bound at `addr`; before lines 108-114. -/
  | bound (addr : String)
  /-- Before lines 116-125 (authorization URL, browser, messages). -/
  | direct
  /-- Blocked in the receive `<-code` of line 127. -/
  | await
  /-- The receive returned `code`; before the call of `config.Exchange` and the return. -/
  | exchange (code : String)
  /-- The function `ExecuteFlow` has returned. -/
  | returned (r : Except Error Token)
deriving DecidableEq, Repr

/-- What the variable `config` of `ExecuteFlow` points to: the caller's object, or the
local `configCopy`. -/
inductive ConfigRef where
  | caller
  | copy
deriving DecidableEq, Repr

/-- The state of one call of `ExecuteFlow`. -/
structure State where
  /-- The argument `options`. -/
  opts : List FlowOption
  /-- The local `o`. -/
  o : options
  /-- The object the caller's `*oauth2.Config` points to. -/
  callerConfig : Config
  /-- The local `configCopy`. -/
  configCopy : Config
  /-- The variable `config`. -/
  config : ConfigRef
  /-- Whether the context `ctx` has been cancelled. -/
  cancelled : Bool
  /-- The address of the listener `l`, once `net.Listen` succeeded. -/
  listener : Option String
  /-- Whether the listener is open (bound and not closed). -/
  listenerOpen : Bool
  /-- Whether `go http.Serve` has been started. -/
  serving : Bool
  /-- The requests the handler has been called on, in that order. -/
  requests : List Request
  /-- The indices (in `requests`) of the handlers whose send `code <- ...` completed. -/
  handoffs : List Nat
  pc : PC
  trace : List Event
deriving DecidableEq, Repr

/-- The zero value of `oauth2.Config`. -/
def Config.zero : Config :=
  { ClientID := "", ClientSecret := "", AuthURL := "", TokenURL := "", RedirectURL := "",
    Scopes := [] }

/-- The state on entry to `ExecuteFlow(ctx, config, options...)`. -/
def State.init (cancelled : Bool) (config : Config) (opts : List FlowOption) : State :=
  { opts := opts, o := options.zero, callerConfig := config, configCopy := Config.zero,
    config := .caller, cancelled := cancelled, listener := none, listenerOpen := false,
    serving := false, requests := [], handoffs := [], pc := .entry, trace := [] }

/-- The value `*config`. -/
def State.deref (s : State) : Config :=
  match s.config with
  | .caller => s.callerConfig
  | .copy => s.configCopy

/-- The assignment `config.RedirectURL = url`. -/
def State.setRedirectURL (s : State) (url : String) : State :=
  match s.config with
  | .caller => { s with callerConfig := { s.callerConfig with RedirectURL := url } }
  | .copy => { s with configCopy := { s.configCopy with RedirectURL := url } }

/-- Lines 117-123: what is done about the browser, as effects. -/
def directBrowser (env : Env) (noBrowser : Bool) (url : String) : List Event :=
  if noBrowser then [.stderr (visitMessage ++ "\n")]
  else
    match openURL env url with
    | (some _, evs) => evs ++ [.stderr (visitMessage ++ "\n")]
    | (none, evs) => evs ++ [.stderr (openedMessage ++ "\n")]

/-- One step of the foreground goroutine. At `await` it is blocked and at `returned` it
has finished: the state stays as it is. -/
def stepMain (env : Env) (s : State) : State :=
  match s.pc with
  | .entry =>
    -- lines 97-102
    { s with o := processOpts s.opts, configCopy := s.deref, config := .copy, pc := .listen }
  | .listen =>
    -- lines 104-107
    match env.netListen s.o.addr with
    | .error err =>
      { s with pc := .returned (.error err), trace := s.trace ++ [.listen s.o.addr none] }
    | .ok a =>
      { s with listener := some a, listenerOpen := true, pc := .bound a,
               trace := s.trace ++ [.listen s.o.addr (some a)] }
  | .bound a =>
    -- lines 108-114; the deferred `l.Close()` runs at the return
    let s1 := s.setRedirectURL ("http://" ++ a ++ "/")
    { s1 with serving := true, pc := .direct, trace := s1.trace ++ [.serve] }
  | .direct =>
    -- lines 116-125
    let url := env.AuthCodeURL s.deref
    { s with pc := .await,
             trace := s.trace ++ [.authCodeURL s.deref] ++ directBrowser env s.o.noBrowser url ++
               [.stderr ("\n" ++ url ++ "\n\n"), .stderr (resumeMessage ++ "\n")] }
  | .await => s
  | .exchange code =>
    -- line 127 after the receive, then the deferred `l.Close()`
    { s with listenerOpen := false, pc := .returned (env.Exchange s.deref s.cancelled code),
             trace := s.trace ++ [.exchange s.deref code, .close] }
  | .returned _ => s

/-- What the scheduler can do next. -/
inductive Action where
  /-- The foreground goroutine runs its next step. -/
  | main
  /-- The server calls the handler on a request; the handler writes `closeMessage` and
  blocks in the send `code <- r.FormValue("code")` (the channel is unbuffered). -/
  | request (r : Request)
  /-- The send of the handler of request `i` meets the foreground receive `<-code`. -/
  | deliver (i : Nat)
  /-- The caller cancels the context. -/
  | cancel
deriving DecidableEq, Repr

/-- One step of the system. An action that is not enabled leaves the state as it is.
Requests are served from the moment `http.Serve` runs (connections accepted before the
listener is closed can still carry requests afterwards). -/
def step (env : Env) (s : State) : Action → State
  | .main => stepMain env s
  | .request r =>
    if s.serving then
      { s with requests := s.requests ++ [r], trace := s.trace ++ [.respond closeMessage] }
    else s
  | .deliver i =>
    match s.pc with
    | .await =>
      match s.requests[i]? with
      | some r =>
        if i ∈ s.handoffs then s
        else { s with handoffs := s.handoffs ++ [i], pc := .exchange (r.FormValue "code") }
      | none => s
    | _ => s
  | .cancel => { s with cancelled := true }

/-- Run a schedule. -/
def exec (env : Env) (s : State) (sched : List Action) : State :=
  sched.foldl (step env) s

/-- The function `ExecuteFlow` under a schedule: the state the call is in after it. -/
def ExecuteFlow (env : Env) (cancelled : Bool) (config : Config) (opts : List FlowOption)
    (sched : List Action) : State :=
  exec env (State.init cancelled config opts) sched

/-- The values `ExecuteFlow` returned, `none` while it has not returned. -/
def State.result (s : State) : Option (Except Error Token) :=
  match s.pc with
  | .returned r => some r
  | _ => none

/-- The `code` arguments of the calls of `config.Exchange`, in order. -/
def exchangeCodes (tr : List Event) : List String :=
  tr.filterMap fun e =>
    match e with
    | .exchange _ code => some code
    | _ => none

/-- The configurations `AuthCodeURL` and `Exchange` were called on, in order. -/
def usedConfigs (tr : List Event) : List Config :=
  tr.filterMap fun e =>
    match e with
    | .authCodeURL cfg => some cfg
    | .exchange cfg _ => some cfg
    | _ => none

/-- Whether an event is a call of `net.Listen`. -/
def Event.isListen : Event → Bool
  | .listen _ _ => true
  | _ => false

/-- Whether an event is a call of the cache's `Write`. -/
def Event.isCacheWrite : Event → Bool
  | .cacheWrite _ _ => true
  | _ => false

/-! ## flow.go: Client -/

/-- The three values `Client` returns. -/
structure ClientReturn where
  client : Option HTTPClient
  tok : Option Token
  err : Option Error
deriving DecidableEq, Repr

/-- A call of `Client`: what it returned (`none` while it is inside `ExecuteFlow`), the
file system afterwards, the state of its call of `ExecuteFlow` if it made one, and every
effect in order. -/
structure ClientRun where
  ret : Option ClientReturn
  fs : FileSystem
  flow : Option State
  trace : List Event

/-- Lines 72-77 of `Client`: the options after the cache was consulted, and the effect. -/
def clientReadCache (env : Env) (fs : FileSystem) (o : options) : options × List Event :=
  match o.filecache with
  | some c =>
    match c.Token env fs with
    | .ok tok => ({ o with tok := some tok }, [.cacheRead c.name true])
    | .error _ => (o, [.cacheRead c.name false])
  | none => (o, [])

/-- Lines 86-93 of `Client`: run `ExecuteFlow`, write the cache, return. -/
def clientFlow (env : Env) (fs : FileSystem) (cancelled : Bool) (config : Config)
    (opts : List FlowOption) (sched : List Action) (o : options) (tr : List Event) :
    ClientRun :=
  let s := ExecuteFlow env cancelled config opts sched
  match s.result with
  | none => { ret := none, fs := fs, flow := some s, trace := tr ++ s.trace }
  | some (.error err) =>
    { ret := some ⟨none, none, some err⟩, fs := fs, flow := some s, trace := tr ++ s.trace }
  | some (.ok tok) =>
    match o.filecache with
    | some c =>
      { ret := some ⟨some ⟨s.callerConfig, tok⟩, some tok, none⟩,
        fs := (c.Write env fs tok).2, flow := some s,
        trace := tr ++ s.trace ++ [.cacheWrite c.name tok] }
    | none =>
      { ret := some ⟨some ⟨s.callerConfig, tok⟩, some tok, none⟩, fs := fs, flow := some s,
        trace := tr ++ s.trace }

/-- The function `Client(ctx, config, options...)` on file system `fs`, with `sched` the
schedule of its call of `ExecuteFlow`. -/
def Client (env : Env) (fs : FileSystem) (cancelled : Bool) (config : Config)
    (opts : List FlowOption) (sched : List Action) : ClientRun :=
  let (o, tr1) := clientReadCache env fs (processOpts opts)
  match o.tok with
  | some t0 =>
    match env.TokenSource config cancelled t0 with
    | .ok tok =>
      { ret := some ⟨some ⟨config, tok⟩, some tok, none⟩, fs := fs, flow := none,
        trace := tr1 ++ [.tokenSource t0] }
    | .error _ =>
      clientFlow env fs cancelled config opts sched o (tr1 ++ [.tokenSource t0])
  | none => clientFlow env fs cancelled config opts sched o tr1

/-- The working token in the words of the specification: the token the file cache
returns when a cache is configured and its read succeeds, otherwise the token supplied
with `WithExistingToken`. -/
def workingToken (env : Env) (fs : FileSystem) (opts : List FlowOption) : Option Token :=
  match lastSet (fun o => (FlowOption.setsFilecache o).map some) opts none with
  | some c =>
    match c.Token env fs with
    | .ok tok => some tok
    | .error _ => lastSet FlowOption.setsTok opts none
  | none => lastSet FlowOption.setsTok opts none

/-! ## What the reachable states of ExecuteFlow look like -/

/-- Whether an event is a handler's response. -/
def Event.isRespond : Event → Bool
  | .respond _ => true
  | _ => false

/-- The effects of the foreground goroutine: the trace without the handlers' responses. -/
def foreground (tr : List Event) : List Event :=
  tr.filter fun e => !e.isRespond

/-- The configuration `c` with the redirect URL of a listener bound at `a`. -/
def redirected (c : Config) (a : String) : Config :=
  { c with RedirectURL := "http://" ++ a ++ "/" }

/-- The foreground effects up to the receive `<-code`, for a listener bound at `a`. -/
def traceToAwait (env : Env) (o : options) (c : Config) (a : String) : List Event :=
  [.listen o.addr (some a), .serve, .authCodeURL (redirected c a)] ++
    directBrowser env o.noBrowser (env.AuthCodeURL (redirected c a)) ++
    [.stderr ("\n" ++ env.AuthCodeURL (redirected c a) ++ "\n\n"),
     .stderr (resumeMessage ++ "\n")]

/-- The part of the state that is fixed once the listener is bound at `a`. -/
def State.boundAt (s : State) (env : Env) (c : Config) (opts : List FlowOption)
    (a : String) : Prop :=
  env.netListen (processOpts opts).addr = .ok a ∧ s.o = processOpts opts ∧
    s.configCopy = redirected c a ∧ s.config = .copy ∧ s.listener = some a ∧ s.serving = true

/-- The invariant of a call `ExecuteFlow(ctx, c, opts...)`, by program point. -/
def Inv (env : Env) (c : Config) (opts : List FlowOption) (s : State) : Prop :=
  s.callerConfig = c ∧ s.opts = opts ∧
  match s.pc with
  | .entry =>
    s.config = .caller ∧ s.listener = none ∧ s.listenerOpen = false ∧ s.serving = false ∧
      s.requests = [] ∧ s.handoffs = [] ∧ s.trace = []
  | .listen =>
    s.o = processOpts opts ∧ s.configCopy = c ∧ s.config = .copy ∧ s.listener = none ∧
      s.listenerOpen = false ∧ s.serving = false ∧ s.requests = [] ∧ s.handoffs = [] ∧
      s.trace = []
  | .bound a =>
    env.netListen (processOpts opts).addr = .ok a ∧ s.o = processOpts opts ∧
      s.configCopy = c ∧ s.config = .copy ∧ s.listener = some a ∧ s.listenerOpen = true ∧
      s.serving = false ∧ s.requests = [] ∧ s.handoffs = [] ∧
      s.trace = [.listen (processOpts opts).addr (some a)]
  | .direct =>
    ∃ a, s.boundAt env c opts a ∧ s.listenerOpen = true ∧ s.handoffs = [] ∧
      foreground s.trace = [.listen (processOpts opts).addr (some a), .serve]
  | .await =>
    ∃ a, s.boundAt env c opts a ∧ s.listenerOpen = true ∧ s.handoffs = [] ∧
      foreground s.trace = traceToAwait env (processOpts opts) c a
  | .exchange code =>
    ∃ a i r, s.boundAt env c opts a ∧ s.listenerOpen = true ∧ s.handoffs = [i] ∧
      s.requests[i]? = some r ∧ code = r.FormValue "code" ∧
      foreground s.trace = traceToAwait env (processOpts opts) c a
  | .returned res =>
    (∃ err, env.netListen (processOpts opts).addr = .error err ∧ res = .error err ∧
      s.listener = none ∧ s.listenerOpen = false ∧ s.serving = false ∧ s.requests = [] ∧
      s.handoffs = [] ∧ s.trace = [.listen (processOpts opts).addr none]) ∨
    (∃ a i r b, s.boundAt env c opts a ∧ s.listenerOpen = false ∧ s.handoffs = [i] ∧
      s.requests[i]? = some r ∧
      res = env.Exchange (redirected c a) b (r.FormValue "code") ∧
      foreground s.trace = traceToAwait env (processOpts opts) c a ++
        [.exchange (redirected c a) (r.FormValue "code"), .close])

/-! ## A concrete environment -/

/-- The token the sample authorization server issues for `code`; the response carries an
`id_token` besides, kept in `raw`. -/
def exchangedToken (code : String) : Token :=
  { AccessToken := "AT-" ++ code, TokenType := "Bearer", RefreshToken := "RT", Expiry := 3600,
    raw := [("id_token", "eyJhbGciOi")] }

/-- An environment on Linux: the address `localhost:0` is bound at an ephemeral port, the
address `busy:80` cannot be bound, the file `/ro/token` cannot be created, an expiry
before the epoch does not encode, the exchange fails on a cancelled context and on the
empty code, and a token is refreshed as long as it has a refresh value. -/
def sampleEnv : Env :=
  { gobValueErr := fun t => if t.Expiry < 0 then some "Time.MarshalBinary: out of range" else none
    osCreate := fun name => if name = "/ro/token" then some "permission denied" else none
    netListen := fun addr =>
      if addr = "localhost:0" then .ok "127.0.0.1:49152"
      else if addr = "busy:80" then .error "address already in use"
      else .ok addr
    GOOS := "linux"
    cmdStart := fun _ _ => none
    AuthCodeURL := fun cfg => cfg.AuthURL ++ "?redirect_uri=" ++ cfg.RedirectURL
    Exchange := fun _ cancelled code =>
      if cancelled then .error "context canceled"
      else if code = "" then .error "invalid_grant"
      else .ok (exchangedToken code)
    TokenSource := fun _ _ tok =>
      if tok.RefreshToken = "" then .error "token expired and refresh token is not set"
      else .ok { tok with AccessToken := "AT-refreshed" } }

/-- A client configuration whose redirect URL was set by the caller. -/
def sampleConfig : Config :=
  { ClientID := "id", ClientSecret := "secret", AuthURL := "https://auth.example/o",
    TokenURL := "https://auth.example/token", RedirectURL := "urn:caller", Scopes := ["email"] }

/-- A token with a refresh value and no further values. -/
def sampleToken : Token :=
  { AccessToken := "AT", TokenType := "Bearer", RefreshToken := "RT", Expiry := 1700000000,
    raw := [] }

/-- The empty file system. -/
def emptyFS : FileSystem := fun _ => none

/-- A callback request `GET /?state=x&code=ABC123`. -/
def sampleRequest : Request := { form := [("state", "x"), ("code", "ABC123")] }

/-- A file system whose file `tok.gob` holds bytes that are not an encoded token. -/
def staleFS : FileSystem := fun n => if n = "tok.gob" then some [9, 9] else none

/-- A file system whose file `tok.gob` holds the encoding of `sampleToken`. -/
def cachedFS : FileSystem :=
  fun n => if n = "tok.gob" then some (gobEncode sampleEnv sampleToken).1 else none

/-- A schedule in which two requests are handled before the first hands off its code. -/
def twoRequests : List Action :=
  [.main, .main, .main, .main, .request sampleRequest,
   .request { form := [("code", "SECOND")] }, .deliver 0, .main]

/-- A schedule in which the context is cancelled while no request has arrived. -/
def cancelledWait : List Action :=
  [.main, .main, .main, .main, .cancel, .main, .main]

/-! # Theorems -/

/-! ## Options -/

theorem processOpts_snoc (os : List FlowOption) (x : FlowOption) :
    processOpts (os ++ [x]) = x.apply (processOpts os) := by
  simp [processOpts, List.foldl_append]

theorem lastSet_snoc_some {α : Type} (sets : FlowOption → Option α) (os : List FlowOption)
    (x : FlowOption) (d v : α) (h : sets x = some v) : lastSet sets (os ++ [x]) d = v := by
  simp [lastSet, List.filterMap_append, h]

theorem lastSet_snoc_none {α : Type} (sets : FlowOption → Option α) (os : List FlowOption)
    (x : FlowOption) (d : α) (h : sets x = none) :
    lastSet sets (os ++ [x]) d = lastSet sets os d := by
  simp [lastSet, List.filterMap_append, h]

theorem processOpts_eq_lastSet (os : List FlowOption) :
    (processOpts os).tok = lastSet FlowOption.setsTok os none ∧
    (processOpts os).addr = lastSet FlowOption.setsAddr os defaultAddr ∧
    (processOpts os).filecache =
      lastSet (fun o => (FlowOption.setsFilecache o).map some) os none ∧
    (processOpts os).noBrowser = decide (FlowOption.WithNoBrowser ∈ os) := by
  induction os using List.reverseRecOn with
  | nil => simp [processOpts, lastSet, options.zero]
  | append_singleton os x ih =>
    obtain ⟨h1, h2, h3, h4⟩ := ih
    rw [processOpts_snoc]
    cases x with
    | WithNoBrowser =>
      refine ⟨?_, ?_, ?_, ?_⟩
      · rw [lastSet_snoc_none _ _ _ _ rfl]; exact h1
      · rw [lastSet_snoc_none _ _ _ _ rfl]; exact h2
      · rw [lastSet_snoc_none _ _ _ _ rfl]; exact h3
      · simp [FlowOption.apply]
    | WithExistingToken t =>
      refine ⟨?_, ?_, ?_, ?_⟩
      · rw [lastSet_snoc_some _ _ _ _ t rfl]; rfl
      · rw [lastSet_snoc_none _ _ _ _ rfl]; exact h2
      · rw [lastSet_snoc_none _ _ _ _ rfl]; exact h3
      · simp [FlowOption.apply, h4]
    | WithTokenFileCache n =>
      refine ⟨?_, ?_, ?_, ?_⟩
      · rw [lastSet_snoc_none _ _ _ _ rfl]; exact h1
      · rw [lastSet_snoc_none _ _ _ _ rfl]; exact h2
      · rw [lastSet_snoc_some _ _ _ _ (some (NewTokenFileCache n)) rfl]; rfl
      · simp [FlowOption.apply, h4]
    | WithFixedAddr a =>
      refine ⟨?_, ?_, ?_, ?_⟩
      · rw [lastSet_snoc_none _ _ _ _ rfl]; exact h1
      · rw [lastSet_snoc_some _ _ _ _ a rfl]; rfl
      · rw [lastSet_snoc_none _ _ _ _ rfl]; exact h3
      · simp [FlowOption.apply, h4]

/-- C10: every field of `processOpts os` holds the value of the last option of `os` that
sets it, and its default (no token, `localhost:0`, no cache, browser launch enabled) when
no option of `os` sets it; so of two options for one field the later one wins, and an
option for another field in between changes nothing. -/
theorem processOpts_last_option_wins (os : List FlowOption) :
    (processOpts os).tok = lastSet FlowOption.setsTok os none ∧
    (processOpts os).addr = lastSet FlowOption.setsAddr os defaultAddr ∧
    (processOpts os).filecache =
      lastSet (fun o => (FlowOption.setsFilecache o).map some) os none ∧
    (processOpts os).noBrowser = decide (FlowOption.WithNoBrowser ∈ os) ∧
    (∀ a b : String, (processOpts (os ++ [.WithFixedAddr a, .WithFixedAddr b])).addr = b) ∧
    (∀ (t u : Option Token) (x : FlowOption),
      (processOpts (os ++ [.WithExistingToken t, x, .WithExistingToken u])).tok = u) ∧
    (∀ m n : String,
      (processOpts (os ++ [.WithTokenFileCache m, .WithTokenFileCache n])).filecache =
        some (NewTokenFileCache n)) ∧
    (∀ x : FlowOption, x.setsTok = none →
      (processOpts (os ++ [x])).tok = (processOpts os).tok) ∧
    (∀ x : FlowOption, x.setsAddr = none →
      (processOpts (os ++ [x])).addr = (processOpts os).addr) ∧
    (∀ x : FlowOption, x.setsFilecache = none →
      (processOpts (os ++ [x])).filecache = (processOpts os).filecache) := by
  obtain ⟨h1, h2, h3, h4⟩ := processOpts_eq_lastSet os
  refine ⟨h1, h2, h3, h4, ?_, ?_, ?_, ?_, ?_, ?_⟩
  · intro a b
    simp [processOpts, FlowOption.apply]
  · intro t u x
    simp [processOpts, FlowOption.apply]
  · intro m n
    simp [processOpts, FlowOption.apply]
  · intro x hx
    rw [processOpts_snoc]
    cases x <;> first | rfl | cases hx
  · intro x hx
    rw [processOpts_snoc]
    cases x <;> first | rfl | cases hx
  · intro x hx
    rw [processOpts_snoc]
    cases x <;> first | rfl | cases hx

/-! ## The invariant of ExecuteFlow -/

theorem inv_init (env : Env) (cancelled : Bool) (c : Config) (opts : List FlowOption) :
    Inv env c opts (State.init cancelled c opts) := by
  simp [Inv, State.init]

theorem openURL_not_respond (env : Env) (url : String) :
    ∀ e ∈ (openURL env url).2, e.isRespond = false := by
  unfold openURL
  split_ifs <;> simp [Event.isRespond]

theorem directBrowser_not_respond (env : Env) (nb : Bool) (url : String) :
    ∀ e ∈ directBrowser env nb url, e.isRespond = false := by
  have h := openURL_not_respond env url
  unfold directBrowser
  split
  · simp [Event.isRespond]
  · rcases hx : openURL env url with ⟨_ | err, evs⟩ <;> rw [hx] at h <;>
      simp only [List.mem_append, List.mem_singleton] <;>
      rintro e (he | rfl) <;> first | exact h e he | rfl

theorem foreground_directBrowser (env : Env) (nb : Bool) (url : String) :
    foreground (directBrowser env nb url) = directBrowser env nb url := by
  unfold foreground
  rw [List.filter_eq_self]
  intro e he
  simp [directBrowser_not_respond env nb url e he]

theorem inv_step (env : Env) (c : Config) (opts : List FlowOption) (s : State) (a : Action)
    (h : Inv env c opts s) : Inv env c opts (step env s a) := by
  obtain ⟨opts1, o, cc, cpy, cfg, can, l, lo, srv, reqs, hs, pc, tr⟩ := s
  obtain ⟨h1, h2, h3⟩ := h
  simp only at h1 h2 h3
  subst h1 h2
  cases a with
  | main =>
    cases pc with
    | entry =>
      simp only at h3
      obtain ⟨h4, h5, h6, h7, h8, h9, h10⟩ := h3
      subst h4
      simp [Inv, step, stepMain, State.deref, *]
    | listen =>
      simp only at h3
      obtain ⟨h4, h5, h6, h7, h8, h9, h10, h11, h12⟩ := h3
      subst h4 h5 h6 h7 h8 h9 h10 h11 h12
      cases hl : env.netListen (processOpts opts1).addr with
      | error err => simp [Inv, step, stepMain, hl]
      | ok a => simp [Inv, step, stepMain, hl]
    | bound a =>
      simp only at h3
      obtain ⟨h4, h5, h6, h7, h8, h9, h10, h11, h12, h13⟩ := h3
      subst h5 h6 h7 h8 h9 h10 h11 h12 h13
      simp [Inv, step, stepMain, State.setRedirectURL, State.boundAt, redirected, foreground,
        Event.isRespond, h4]
    | direct =>
      simp only at h3
      obtain ⟨a, ⟨h4, h5, h6, h7, h8, h9⟩, h10, h11, h12⟩ := h3
      simp only at h4 h5 h6 h7 h8 h9 h10 h11 h12
      subst h5 h6 h7 h8 h9 h10 h11
      refine ⟨rfl, rfl, a, ⟨h4, rfl, rfl, rfl, rfl, rfl⟩, rfl, rfl, ?_⟩
      simp only [step, stepMain, State.deref, foreground, List.filter_append] at h12 ⊢
      rw [h12]
      have hb := foreground_directBrowser env (processOpts opts1).noBrowser
        (env.AuthCodeURL (redirected cc a))
      simp only [foreground] at hb
      rw [hb]
      simp [traceToAwait, Event.isRespond]
    | await => exact ⟨rfl, rfl, h3⟩
    | exchange code =>
      simp only at h3
      obtain ⟨a, i, r, ⟨h4, h5, h6, h7, h8, h9⟩, h10, h11, h12, h13, h14⟩ := h3
      simp only at h4 h5 h6 h7 h8 h9 h10 h11 h12 h13 h14
      subst h5 h6 h7 h8 h9 h10 h11 h13
      refine ⟨rfl, rfl, Or.inr ⟨a, i, r, can, ⟨h4, rfl, rfl, rfl, rfl, rfl⟩, rfl, rfl, h12, rfl, ?_⟩⟩
      simp only [step, stepMain, State.deref, foreground, List.filter_append] at h14 ⊢
      rw [h14]
      simp [Event.isRespond]
    | returned r => exact ⟨rfl, rfl, h3⟩
  | request r =>
    by_cases hsrv : srv = true
    · subst hsrv
      have hf : foreground (tr ++ [Event.respond closeMessage]) = foreground tr := by
        simp [foreground, Event.isRespond]
      cases pc with
      | entry => simp at h3
      | listen => simp at h3
      | bound a => simp at h3
      | direct =>
        simp only at h3
        obtain ⟨a, ⟨h4, h5, h6, h7, h8, h9⟩, h10, h11, h12⟩ := h3
        exact ⟨rfl, rfl, a, ⟨h4, h5, h6, h7, h8, h9⟩, h10, h11, by
          simp only [step, if_true]; rw [hf]; exact h12⟩
      | await =>
        simp only at h3
        obtain ⟨a, ⟨h4, h5, h6, h7, h8, h9⟩, h10, h11, h12⟩ := h3
        exact ⟨rfl, rfl, a, ⟨h4, h5, h6, h7, h8, h9⟩, h10, h11, by
          simp only [step, if_true]; rw [hf]; exact h12⟩
      | exchange code =>
        simp only at h3
        obtain ⟨a, i, r0, ⟨h4, h5, h6, h7, h8, h9⟩, h10, h11, h12, h13, h14⟩ := h3
        refine ⟨rfl, rfl, a, i, r0, ⟨h4, h5, h6, h7, h8, h9⟩, h10, h11, ?_, h13, by
          simp only [step, if_true]; rw [hf]; exact h14⟩
        show (reqs ++ [r])[i]? = some r0
        rw [List.getElem?_append_left (List.getElem?_eq_some.mp h12).1]
        exact h12
      | returned res =>
        simp only at h3
        rcases h3 with ⟨err, h4, h5, h6, h7, h8, h9⟩ | ⟨a, i, r0, b, ⟨h4, h5, h6, h7, h8, h9⟩, h10, h11, h12, h13, h14⟩
        · simp at h8
        · refine ⟨rfl, rfl, Or.inr ⟨a, i, r0, b, ⟨h4, h5, h6, h7, h8, h9⟩, h10, h11, ?_, h13, by
            simp only [step, if_true]; rw [hf]; exact h14⟩⟩
          show (reqs ++ [r])[i]? = some r0
          rw [List.getElem?_append_left (List.getElem?_eq_some.mp h12).1]
          exact h12
    · have hstep : step env ⟨opts1, o, cc, cpy, cfg, can, l, lo, srv, reqs, hs, pc, tr⟩ (.request r)
          = ⟨opts1, o, cc, cpy, cfg, can, l, lo, srv, reqs, hs, pc, tr⟩ := by
        simp [step, hsrv]
      rw [hstep]
      exact ⟨rfl, rfl, h3⟩
  | deliver i =>
    cases pc with
    | await =>
      simp only at h3
      obtain ⟨a, ⟨h4, h5, h6, h7, h8, h9⟩, h10, h11, h12⟩ := h3
      simp only at h4 h5 h6 h7 h8 h9 h10 h11 h12
      subst h11
      cases hr : reqs[i]? with
      | none =>
        simp only [step, hr]
        exact ⟨rfl, rfl, a, ⟨h4, h5, h6, h7, h8, h9⟩, h10, rfl, h12⟩
      | some r =>
        simp only [step, hr, List.not_mem_nil, if_false, List.nil_append]
        exact ⟨rfl, rfl, a, i, r, ⟨h4, h5, h6, h7, h8, h9⟩, h10, rfl, hr, rfl, h12⟩
    | entry => exact ⟨rfl, rfl, h3⟩
    | listen => exact ⟨rfl, rfl, h3⟩
    | bound a => exact ⟨rfl, rfl, h3⟩
    | direct => exact ⟨rfl, rfl, h3⟩
    | exchange code => exact ⟨rfl, rfl, h3⟩
    | returned r => exact ⟨rfl, rfl, h3⟩
  | cancel =>
    cases pc <;> exact ⟨rfl, rfl, h3⟩

theorem inv_exec (env : Env) (c : Config) (opts : List FlowOption) (sched : List Action) :
    ∀ s : State, Inv env c opts s → Inv env c opts (exec env s sched) := by
  induction sched with
  | nil => intro s h; exact h
  | cons a rest ih =>
    intro s h
    exact ih (step env s a) (inv_step env c opts s a h)

theorem inv_ExecuteFlow (env : Env) (cancelled : Bool) (c : Config) (opts : List FlowOption)
    (sched : List Action) : Inv env c opts (ExecuteFlow env cancelled c opts sched) :=
  inv_exec env c opts sched _ (inv_init env cancelled c opts)

theorem openURL_launch (env : Env) (url : String) :
    ∀ e ∈ (openURL env url).2, ∃ n a, e = .start n a := by
  unfold openURL
  split_ifs <;> simp

theorem directBrowser_launch_or_print (env : Env) (nb : Bool) (url : String) :
    ∀ e ∈ directBrowser env nb url, (∃ n a, e = .start n a) ∨ (∃ t, e = .stderr t) := by
  have h := openURL_launch env url
  unfold directBrowser
  split
  · simp
  · rcases hx : openURL env url with ⟨_ | err, evs⟩ <;> rw [hx] at h <;>
      simp only [List.mem_append, List.mem_singleton] <;>
      rintro e (he | rfl) <;> first | exact Or.inl (h e he) | exact Or.inr ⟨_, rfl⟩

theorem usedConfigs_directBrowser (env : Env) (nb : Bool) (url : String) :
    usedConfigs (directBrowser env nb url) = [] := by
  unfold usedConfigs
  rw [List.filterMap_eq_nil_iff]
  intro e he
  rcases directBrowser_launch_or_print env nb url e he with ⟨n, a, rfl⟩ | ⟨t, rfl⟩ <;> rfl

theorem exchangeCodes_directBrowser (env : Env) (nb : Bool) (url : String) :
    exchangeCodes (directBrowser env nb url) = [] := by
  unfold exchangeCodes
  rw [List.filterMap_eq_nil_iff]
  intro e he
  rcases directBrowser_launch_or_print env nb url e he with ⟨n, a, rfl⟩ | ⟨t, rfl⟩ <;> rfl

theorem count_close_directBrowser (env : Env) (nb : Bool) (url : String) :
    (directBrowser env nb url).count .close = 0 := by
  rw [List.count_eq_zero]
  intro he
  rcases directBrowser_launch_or_print env nb url _ he with ⟨n, a, h⟩ | ⟨t, h⟩ <;> cases h

theorem usedConfigs_foreground (tr : List Event) :
    usedConfigs (foreground tr) = usedConfigs tr := by
  induction tr with
  | nil => rfl
  | cons e rest ih =>
    cases e <;> simp_all [usedConfigs, foreground, Event.isRespond, List.filter_cons]

theorem exchangeCodes_foreground (tr : List Event) :
    exchangeCodes (foreground tr) = exchangeCodes tr := by
  induction tr with
  | nil => rfl
  | cons e rest ih =>
    cases e <;> simp_all [exchangeCodes, foreground, Event.isRespond, List.filter_cons]

theorem count_close_foreground (tr : List Event) :
    (foreground tr).count .close = tr.count .close := by
  unfold foreground
  exact List.count_filter (by rfl)

theorem usedConfigs_traceToAwait (env : Env) (o : options) (c : Config) (a : String) :
    usedConfigs (traceToAwait env o c a) = [redirected c a] := by
  have h := usedConfigs_directBrowser env o.noBrowser (env.AuthCodeURL (redirected c a))
  unfold usedConfigs at h
  simp [traceToAwait, usedConfigs, List.filterMap_append, h]

theorem exchangeCodes_traceToAwait (env : Env) (o : options) (c : Config) (a : String) :
    exchangeCodes (traceToAwait env o c a) = [] := by
  have h := exchangeCodes_directBrowser env o.noBrowser (env.AuthCodeURL (redirected c a))
  unfold exchangeCodes at h
  simp [traceToAwait, exchangeCodes, List.filterMap_append, h]

theorem count_close_traceToAwait (env : Env) (o : options) (c : Config) (a : String) :
    (traceToAwait env o c a).count .close = 0 := by
  have h := count_close_directBrowser env o.noBrowser (env.AuthCodeURL (redirected c a))
  simp [traceToAwait, List.count_append, h, List.count_cons]

/-! ## ExecuteFlow -/

theorem result_eq_some (s : State) (r : Except Error Token) (h : s.result = some r) :
    s.pc = .returned r := by
  unfold State.result at h
  split at h
  · next r0 hpc => rw [hpc]; cases h; rfl
  · cases h

/-- C8: whatever the schedule and the outcome, the configuration object of the caller
is the same after `ExecuteFlow` as before, its `RedirectURL` included; the redirect URL
of the bound listener is written to the local copy. -/
theorem ExecuteFlow_keeps_caller_config (env : Env) (cancelled : Bool) (c : Config)
    (opts : List FlowOption) (sched : List Action) :
    (ExecuteFlow env cancelled c opts sched).callerConfig = c ∧
    (ExecuteFlow env cancelled c opts sched).callerConfig.RedirectURL = c.RedirectURL ∧
    (∀ a, (ExecuteFlow env cancelled c opts sched).listener = some a →
      (ExecuteFlow env cancelled c opts sched).serving = true →
      (ExecuteFlow env cancelled c opts sched).configCopy = redirected c a) := by
  have hinv := inv_ExecuteFlow env cancelled c opts sched
  generalize ExecuteFlow env cancelled c opts sched = s at hinv
  obtain ⟨h1, h2, h3⟩ := hinv
  refine ⟨h1, by rw [h1], ?_⟩
  intro a hl hs
  obtain ⟨opts1, o, cc, cpy, cfg, can, l, lo, srv, reqs, hs1, pc, tr⟩ := s
  simp only at h3 hl hs
  subst hl hs
  cases pc with
  | entry => simp at h3
  | listen => simp at h3
  | bound a0 => simp at h3
  | direct =>
    obtain ⟨a1, ⟨-, -, h6, -, h8, -⟩, -⟩ := h3
    simp only [Option.some.injEq] at h8
    subst h8
    exact h6
  | await =>
    obtain ⟨a1, ⟨-, -, h6, -, h8, -⟩, -⟩ := h3
    simp only [Option.some.injEq] at h8
    subst h8
    exact h6
  | exchange code =>
    obtain ⟨a1, i, r, ⟨-, -, h6, -, h8, -⟩, -⟩ := h3
    simp only [Option.some.injEq] at h8
    subst h8
    exact h6
  | returned res =>
    rcases h3 with ⟨err, -, -, -, -, h9, -⟩ | ⟨a1, i, r, b, ⟨-, -, h6, -, h8, -⟩, -⟩
    · simp at h9
    · simp only [Option.some.injEq] at h8
      subst h8
      exact h6

/-- The invariant at a returned state, with the trace facts the claims use. -/
theorem returned_cases (env : Env) (c : Config) (opts : List FlowOption) (s : State)
    (r : Except Error Token) (hinv : Inv env c opts s) (hret : s.result = some r) :
    (∃ err, env.netListen (processOpts opts).addr = .error err ∧ r = .error err ∧
      s.listener = none ∧ s.listenerOpen = false ∧ s.requests = [] ∧ s.handoffs = [] ∧
      s.trace = [.listen (processOpts opts).addr none]) ∨
    (∃ a i req b, env.netListen (processOpts opts).addr = .ok a ∧ s.listener = some a ∧
      s.listenerOpen = false ∧ s.handoffs = [i] ∧ s.requests[i]? = some req ∧
      r = env.Exchange (redirected c a) b (req.FormValue "code") ∧
      foreground s.trace = traceToAwait env (processOpts opts) c a ++
        [.exchange (redirected c a) (req.FormValue "code"), .close]) := by
  have hpc := result_eq_some s r hret
  obtain ⟨-, -, h3⟩ := hinv
  rw [hpc] at h3
  rcases h3 with ⟨err, h4, h5, h6, h7, -, h9, h10, h11⟩ |
    ⟨a, i, req, b, ⟨h4, -, -, -, h8, -⟩, h10, h11, h12, h13, h14⟩
  · exact Or.inl ⟨err, h4, h5, h6, h7, h9, h10, h11⟩
  · exact Or.inr ⟨a, i, req, b, h4, h8, h10, h11, h12, h13, h14⟩

/-- C6: when `ExecuteFlow` has returned, either the bind failed, there is no listener,
the bind error is the result and the call of `net.Listen` is the only effect (no browser
launch, no print, no exchange); or the bind succeeded, the result is that of the
exchange (success or failure), the listener is closed, and `l.Close()` ran exactly once,
as the last effect of the foreground goroutine, after the exchange. -/
theorem ExecuteFlow_closes_listener (env : Env) (cancelled : Bool) (c : Config)
    (opts : List FlowOption) (sched : List Action) (r : Except Error Token)
    (hret : (ExecuteFlow env cancelled c opts sched).result = some r) :
    (∃ err, env.netListen (processOpts opts).addr = .error err ∧ r = .error err ∧
      (ExecuteFlow env cancelled c opts sched).listener = none ∧
      (ExecuteFlow env cancelled c opts sched).listenerOpen = false ∧
      (ExecuteFlow env cancelled c opts sched).trace =
        [.listen (processOpts opts).addr none]) ∨
    (∃ a b code, env.netListen (processOpts opts).addr = .ok a ∧
      r = env.Exchange (redirected c a) b code ∧
      (ExecuteFlow env cancelled c opts sched).listener = some a ∧
      (ExecuteFlow env cancelled c opts sched).listenerOpen = false ∧
      foreground (ExecuteFlow env cancelled c opts sched).trace =
        traceToAwait env (processOpts opts) c a ++
          [.exchange (redirected c a) code, .close] ∧
      (ExecuteFlow env cancelled c opts sched).trace.count .close = 1) := by
  have hinv := inv_ExecuteFlow env cancelled c opts sched
  generalize ExecuteFlow env cancelled c opts sched = s at hinv hret
  rcases returned_cases env c opts s r hinv hret with
    ⟨err, h1, h2, h3, h4, -, -, h7⟩ | ⟨a, i, req, b, h1, h2, h3, -, -, h6, h7⟩
  · exact Or.inl ⟨err, h1, h2, h3, h4, h7⟩
  · refine Or.inr ⟨a, b, req.FormValue "code", h1, h6, h2, h3, h7, ?_⟩
    rw [← count_close_foreground, h7, List.count_append, count_close_traceToAwait]
    simp [List.count_cons]

/-- The configurations used so far, by program point. -/
theorem usedConfigs_cases (env : Env) (c : Config) (opts : List FlowOption) (s : State)
    (a : String) (hinv : Inv env c opts s)
    (hbind : env.netListen (processOpts opts).addr = .ok a) :
    (usedConfigs s.trace = [] ∧ s.pc ≠ .await ∧ s.result = none) ∨
    (usedConfigs s.trace = [redirected c a] ∧ s.result = none) ∨
    (usedConfigs s.trace = [redirected c a, redirected c a] ∧ s.pc ≠ .await) := by
  obtain ⟨opts1, o, cc, cpy, cfg, can, l, lo, srv, reqs, hs1, pc, tr⟩ := s
  obtain ⟨h1, h2, h3⟩ := hinv
  dsimp only at h1 h2 h3 ⊢
  subst h1 h2
  have key : ∀ a1, env.netListen (processOpts opts1).addr = .ok a1 → a1 = a := by
    intro a1 h
    rw [hbind] at h
    cases h
    rfl
  have hu := usedConfigs_foreground tr
  cases pc with
  | entry =>
    dsimp only at h3
    rw [h3.2.2.2.2.2.2]
    exact Or.inl ⟨rfl, by simp, rfl⟩
  | listen =>
    dsimp only at h3
    rw [h3.2.2.2.2.2.2.2.2]
    exact Or.inl ⟨rfl, by simp, rfl⟩
  | bound a0 =>
    dsimp only at h3
    rw [h3.2.2.2.2.2.2.2.2.2]
    exact Or.inl ⟨rfl, by simp, rfl⟩
  | direct =>
    obtain ⟨a1, ⟨h4, -⟩, -, -, h12⟩ := h3
    rw [h12] at hu
    exact Or.inl ⟨hu.symm, by simp, rfl⟩
  | await =>
    obtain ⟨a1, ⟨h4, -⟩, -, -, h12⟩ := h3
    rw [h12, usedConfigs_traceToAwait, key a1 h4] at hu
    exact Or.inr (Or.inl ⟨hu.symm, rfl⟩)
  | exchange code =>
    obtain ⟨a1, i, r, ⟨h4, -⟩, -, -, -, -, h12⟩ := h3
    rw [h12, usedConfigs_traceToAwait, key a1 h4] at hu
    exact Or.inr (Or.inl ⟨hu.symm, rfl⟩)
  | returned res =>
    rcases h3 with ⟨err, h4, -⟩ | ⟨a1, i, r, b, ⟨h4, -⟩, -, -, -, -, h12⟩
    · rw [hbind] at h4
      cases h4
    · have h0 := usedConfigs_traceToAwait env (processOpts opts1) cc a1
      rw [h12, key a1 h4] at hu
      rw [key a1 h4] at h0
      unfold usedConfigs at h0 hu
      rw [List.filterMap_append, h0] at hu
      refine Or.inr (Or.inr ⟨?_, by simp⟩)
      unfold usedConfigs
      rw [← hu]
      rfl

/-- C7: when the bind succeeds with bound address `a`, every configuration that
`ExecuteFlow` calls `AuthCodeURL` or `Exchange` on is the caller's configuration with
redirect URL `"http://" ++ a ++ "/"`; the authorization URL is built from it before the
wait, and a returned flow used it for both calls. -/
theorem ExecuteFlow_redirect_url (env : Env) (cancelled : Bool) (c : Config)
    (opts : List FlowOption) (sched : List Action) (a : String)
    (hbind : env.netListen (processOpts opts).addr = .ok a) :
    (∀ cfg ∈ usedConfigs (ExecuteFlow env cancelled c opts sched).trace,
      cfg = redirected c a ∧ cfg.RedirectURL = "http://" ++ a ++ "/") ∧
    ((ExecuteFlow env cancelled c opts sched).pc = .await →
      usedConfigs (ExecuteFlow env cancelled c opts sched).trace = [redirected c a]) ∧
    (∀ r, (ExecuteFlow env cancelled c opts sched).result = some r →
      usedConfigs (ExecuteFlow env cancelled c opts sched).trace =
        [redirected c a, redirected c a]) := by
  have hinv := inv_ExecuteFlow env cancelled c opts sched
  generalize ExecuteFlow env cancelled c opts sched = s at hinv
  rcases usedConfigs_cases env c opts s a hinv hbind with ⟨h1, h2, h3⟩ | ⟨h1, h3⟩ | ⟨h1, h2⟩
  · rw [h1]
    refine ⟨by simp, fun h => absurd h h2, fun r hr => ?_⟩
    rw [h3] at hr
    cases hr
  · rw [h1]
    refine ⟨?_, fun _ => rfl, fun r hr => ?_⟩
    · intro cfg hcfg
      rw [List.mem_singleton] at hcfg
      subst hcfg
      exact ⟨rfl, rfl⟩
    · rw [h3] at hr
      cases hr
  · rw [h1]
    refine ⟨?_, fun h => absurd h h2, fun _ _ => rfl⟩
    intro cfg hcfg
    simp only [List.mem_cons, List.mem_singleton, List.not_mem_nil, or_false, or_self] at hcfg
    subst hcfg
    exact ⟨rfl, rfl⟩

/-- The hand-offs and the exchange calls so far, by program point, once a request has
been handled. -/
theorem exchange_cases (env : Env) (c : Config) (opts : List FlowOption) (s : State)
    (hinv : Inv env c opts s) (hreq : s.requests ≠ []) :
    ((s.pc = .direct ∨ s.pc = .await) ∧ s.handoffs = [] ∧ exchangeCodes s.trace = []) ∨
    (∃ i r, s.pc = .exchange (r.FormValue "code") ∧ s.handoffs = [i] ∧
      s.requests[i]? = some r ∧ exchangeCodes s.trace = []) ∨
    (∃ i r res, s.pc = .returned res ∧ s.handoffs = [i] ∧ s.requests[i]? = some r ∧
      exchangeCodes s.trace = [r.FormValue "code"]) := by
  obtain ⟨opts1, o, cc, cpy, cfg, can, l, lo, srv, reqs, hs1, pc, tr⟩ := s
  obtain ⟨h1, h2, h3⟩ := hinv
  dsimp only at h1 h2 h3 hreq ⊢
  have hu := exchangeCodes_foreground tr
  cases pc with
  | entry => exact absurd h3.2.2.2.2.1 hreq
  | listen => exact absurd h3.2.2.2.2.2.2.1 hreq
  | bound a0 => exact absurd h3.2.2.2.2.2.2.2.1 hreq
  | direct =>
    obtain ⟨a1, -, -, h11, h12⟩ := h3
    rw [h12] at hu
    exact Or.inl ⟨Or.inl rfl, h11, hu.symm⟩
  | await =>
    obtain ⟨a1, -, -, h11, h12⟩ := h3
    rw [h12, exchangeCodes_traceToAwait] at hu
    exact Or.inl ⟨Or.inr rfl, h11, hu.symm⟩
  | exchange code =>
    obtain ⟨a1, i, r, -, -, h11, h12, h13, h14⟩ := h3
    rw [h14, exchangeCodes_traceToAwait] at hu
    subst h13
    exact Or.inr (Or.inl ⟨i, r, rfl, h11, h12, hu.symm⟩)
  | returned res =>
    rcases h3 with ⟨err, -, -, -, -, -, h9, -⟩ | ⟨a1, i, r, b, -, -, h11, h12, -, h14⟩
    · exact absurd h9 hreq
    · have h0 := exchangeCodes_traceToAwait env (processOpts opts) c a1
      unfold exchangeCodes at h0 hu
      rw [h14, List.filterMap_append, h0] at hu
      refine Or.inr (Or.inr ⟨i, r, res, rfl, h11, h12, ?_⟩)
      unfold exchangeCodes
      rw [← hu]
      rfl

/-- A request is handled only when the listener is bound. -/
theorem handled_bound (env : Env) (c : Config) (opts : List FlowOption) (s : State)
    (hinv : Inv env c opts s) (hreq : s.requests ≠ []) : s.listener ≠ none := by
  obtain ⟨opts1, o, cc, cpy, cfg, can, l, lo, srv, reqs, hs1, pc, tr⟩ := s
  obtain ⟨h1, h2, h3⟩ := hinv
  dsimp only at h1 h2 h3 hreq ⊢
  cases pc with
  | entry => exact absurd h3.2.2.2.2.1 hreq
  | listen => exact absurd h3.2.2.2.2.2.2.1 hreq
  | bound a0 => exact absurd h3.2.2.2.2.2.2.2.1 hreq
  | direct =>
    obtain ⟨a1, ⟨-, -, -, -, h8, -⟩, -⟩ := h3
    intro hl; rw [hl] at h8; cases h8
  | await =>
    obtain ⟨a1, ⟨-, -, -, -, h8, -⟩, -⟩ := h3
    intro hl; rw [hl] at h8; cases h8
  | exchange code =>
    obtain ⟨a1, i, r, ⟨-, -, -, -, h8, -⟩, -⟩ := h3
    intro hl; rw [hl] at h8; cases h8
  | returned res =>
    rcases h3 with ⟨err, -, -, -, -, -, h9, -⟩ | ⟨a1, i, r, b, ⟨-, -, -, -, h8, -⟩, -⟩
    · exact absurd h9 hreq
    · intro hl; rw [hl] at h8; cases h8

/-- Once a request has been handled the flow can always be finished: a step of the
foreground goroutine, the hand-off of any handled request, and another step of the
foreground goroutine make `ExecuteFlow` return. -/
theorem exchange_progress (env : Env) (c : Config) (opts : List FlowOption) (s : State)
    (hinv : Inv env c opts s) (i : Nat) (hi : i < s.requests.length) :
    (exec env s [.main, .deliver i, .main]).result ≠ none := by
  obtain ⟨opts1, o, cc, cpy, cfg, can, l, lo, srv, reqs, hs1, pc, tr⟩ := s
  obtain ⟨h1, h2, h3⟩ := hinv
  dsimp only at h1 h2 h3 hi
  have hget : reqs[i]? = some reqs[i] := List.getElem?_eq_getElem hi
  cases pc with
  | entry => rw [h3.2.2.2.2.1] at hi; cases hi
  | listen => rw [h3.2.2.2.2.2.2.1] at hi; cases hi
  | bound a0 => rw [h3.2.2.2.2.2.2.2.1] at hi; cases hi
  | direct =>
    obtain ⟨a1, -, -, h11, -⟩ := h3
    subst h11
    simp [exec, step, stepMain, State.result, hget]
  | await =>
    obtain ⟨a1, -, -, h11, -⟩ := h3
    subst h11
    simp [exec, step, stepMain, State.result, hget]
  | exchange code => simp [exec, step, stepMain, State.result]
  | returned res => simp [exec, step, stepMain, State.result]

/-- C4: in a run of `ExecuteFlow` in which a request has been handled (so the listener
is bound), at most one handler ever hands off its code; the exchange has been called either
not yet or exactly once, with the `code` form value of the request that handed off; when
the run is over (neither the foreground goroutine nor a hand-off can take a step) it has
been called exactly once, with that value; the run can always be brought to its end; and
the form value of a request without `code` parameter is the empty string. -/
theorem ExecuteFlow_exchanges_first_code (env : Env) (cancelled : Bool) (c : Config)
    (opts : List FlowOption) (sched : List Action)
    (hreq : (ExecuteFlow env cancelled c opts sched).requests ≠ []) :
    (ExecuteFlow env cancelled c opts sched).listener ≠ none ∧
    (ExecuteFlow env cancelled c opts sched).handoffs.length ≤ 1 ∧
    (exchangeCodes (ExecuteFlow env cancelled c opts sched).trace = [] ∨
      ∃ i r, (ExecuteFlow env cancelled c opts sched).handoffs = [i] ∧
        (ExecuteFlow env cancelled c opts sched).requests[i]? = some r ∧
        exchangeCodes (ExecuteFlow env cancelled c opts sched).trace = [r.FormValue "code"]) ∧
    (step env (ExecuteFlow env cancelled c opts sched) .main =
        ExecuteFlow env cancelled c opts sched →
      (∀ i, step env (ExecuteFlow env cancelled c opts sched) (.deliver i) =
        ExecuteFlow env cancelled c opts sched) →
      ∃ i r, (ExecuteFlow env cancelled c opts sched).handoffs = [i] ∧
        (ExecuteFlow env cancelled c opts sched).requests[i]? = some r ∧
        exchangeCodes (ExecuteFlow env cancelled c opts sched).trace = [r.FormValue "code"] ∧
        (ExecuteFlow env cancelled c opts sched).result ≠ none) ∧
    (∀ i, i < (ExecuteFlow env cancelled c opts sched).requests.length →
      (exec env (ExecuteFlow env cancelled c opts sched) [.main, .deliver i, .main]).result
        ≠ none) ∧
    (∀ r : Request, r.form.lookup "code" = none → r.FormValue "code" = "") ∧
    (∀ (r : Request) (v : String), r.form.lookup "code" = some v → r.FormValue "code" = v) := by
  have hinv := inv_ExecuteFlow env cancelled c opts sched
  generalize ExecuteFlow env cancelled c opts sched = s at hinv hreq
  refine ⟨?_, ?_, ?_, ?_, fun i hi => exchange_progress env c opts s hinv i hi, ?_, ?_⟩
  · exact handled_bound env c opts s hinv hreq
  · rcases exchange_cases env c opts s hinv hreq with ⟨-, h, -⟩ | ⟨i, r, -, h, -⟩ |
      ⟨i, r, res, -, h, -⟩ <;> rw [h] <;> simp
  · rcases exchange_cases env c opts s hinv hreq with ⟨-, -, h⟩ | ⟨i, r, -, -, -, h⟩ |
      ⟨i, r, res, -, h1, h2, h3⟩
    · exact Or.inl h
    · exact Or.inl h
    · exact Or.inr ⟨i, r, h1, h2, h3⟩
  · intro hmain hdel
    rcases exchange_cases env c opts s hinv hreq with ⟨hpc | hpc, hh, -⟩ | ⟨i, r, hpc, -⟩ |
      ⟨i, r, res, hpc, h1, h2, h3⟩
    · have h := congrArg State.pc hmain
      simp [step, stepMain, hpc] at h
    · exfalso
      have h0 : 0 < s.requests.length := List.length_pos.mpr hreq
      have h := congrArg State.pc (hdel 0)
      simp [step, hpc, List.getElem?_eq_getElem h0, hh] at h
    · have h := congrArg State.pc hmain
      simp [step, stepMain, hpc] at h
    · exact ⟨i, r, h1, h2, h3, by simp [State.result, hpc]⟩
  · intro r h
    simp [Request.FormValue, h]
  · intro r v h
    simp [Request.FormValue, h]

/-- With the listener bound and no request handled, the foreground goroutine is at or
before the receive: it has not returned, the listener is open, no exchange was called. -/
theorem waiting_of_no_request (env : Env) (c : Config) (opts : List FlowOption) (s : State)
    (hinv : Inv env c opts s) (hbound : s.listener ≠ none) (hreq : s.requests = []) :
    s.result = none ∧ s.listenerOpen = true ∧ exchangeCodes s.trace = [] ∧
      (exec env s [.main, .main]).pc = .await := by
  obtain ⟨opts1, o, cc, cpy, cfg, can, l, lo, srv, reqs, hs1, pc, tr⟩ := s
  obtain ⟨h1, h2, h3⟩ := hinv
  dsimp only at h1 h2 h3 hbound hreq ⊢
  have hu := exchangeCodes_foreground tr
  cases pc with
  | entry => exact absurd h3.2.1 hbound
  | listen => exact absurd h3.2.2.2.1 hbound
  | bound a0 =>
    obtain ⟨-, -, -, -, -, h9, -, -, -, h13⟩ := h3
    rw [h13]
    refine ⟨rfl, h9, rfl, ?_⟩
    simp [exec, step, stepMain, State.setRedirectURL]
  | direct =>
    obtain ⟨a1, -, h10, -, h12⟩ := h3
    rw [h12] at hu
    exact ⟨rfl, h10, hu.symm, rfl⟩
  | await =>
    obtain ⟨a1, -, h10, -, h12⟩ := h3
    rw [h12, exchangeCodes_traceToAwait] at hu
    exact ⟨rfl, h10, hu.symm, rfl⟩
  | exchange code =>
    obtain ⟨a1, i, r, -, -, -, h12, -⟩ := h3
    rw [hreq] at h12
    cases h12
  | returned res =>
    rcases h3 with ⟨err, -, -, h6, -⟩ | ⟨a1, i, r, b, -, -, -, h12, -⟩
    · exact absurd h6 hbound
    · rw [hreq] at h12
      cases h12

/-- A step that is not a request leaves the list of handled requests as it is, and no
step unbinds the listener. -/
theorem step_keeps_no_request (env : Env) (s : State) (a : Action)
    (ha : ∀ r, a ≠ .request r) (hbound : s.listener ≠ none) :
    (step env s a).requests = s.requests ∧ (step env s a).listener ≠ none := by
  obtain ⟨opts1, o, cc, cpy, cfg, can, l, lo, srv, reqs, hs1, pc, tr⟩ := s
  dsimp only at hbound
  cases a with
  | main =>
    cases pc with
    | listen =>
      simp only [step, stepMain]
      split <;> simp [hbound]
    | bound a0 =>
      simp only [step, stepMain, State.setRedirectURL]
      cases cfg <;> exact ⟨rfl, hbound⟩
    | entry => exact ⟨rfl, hbound⟩
    | direct => exact ⟨rfl, hbound⟩
    | await => exact ⟨rfl, hbound⟩
    | exchange code => exact ⟨rfl, hbound⟩
    | returned res => exact ⟨rfl, hbound⟩
  | request r => exact absurd rfl (ha r)
  | deliver i =>
    simp only [step]
    split
    · split
      · split <;> exact ⟨rfl, hbound⟩
      · exact ⟨rfl, hbound⟩
    · exact ⟨rfl, hbound⟩
  | cancel => exact ⟨rfl, hbound⟩

/-- A continuation without a request leaves the list of handled requests empty and the
listener bound. -/
theorem exec_keeps_no_request (env : Env) (more : List Action) :
    ∀ s : State, s.listener ≠ none → s.requests = [] →
      (∀ a ∈ more, ∀ r, a ≠ .request r) →
      (exec env s more).listener ≠ none ∧ (exec env s more).requests = [] := by
  induction more with
  | nil =>
    intro s hbound hreq _
    exact ⟨hbound, hreq⟩
  | cons a rest ih =>
    intro s hbound hreq hmore
    have hstep := step_keeps_no_request env s a (hmore a (List.mem_cons_self a rest)) hbound
    exact ih (step env s a) hstep.2 (hstep.1.trans hreq)
      (fun a1 h1 => hmore a1 (List.mem_cons_of_mem a h1))

/-- A cancelled context stays cancelled. -/
theorem step_keeps_cancelled (env : Env) (s : State) (a : Action)
    (h : s.cancelled = true) : (step env s a).cancelled = true := by
  obtain ⟨opts1, o, cc, cpy, cfg, can, l, lo, srv, reqs, hs1, pc, tr⟩ := s
  dsimp only at h
  subst h
  cases a with
  | main =>
    cases pc with
    | listen =>
      simp only [step, stepMain]
      split <;> rfl
    | bound a0 =>
      simp only [step, stepMain, State.setRedirectURL]
      cases cfg <;> rfl
    | entry => rfl
    | direct => rfl
    | await => rfl
    | exchange code => rfl
    | returned res => rfl
  | request r =>
    simp only [step]
    split <;> rfl
  | deliver i =>
    simp only [step]
    split
    · split
      · split <;> rfl
      · rfl
    · rfl
  | cancel => rfl

theorem exec_keeps_cancelled (env : Env) (more : List Action) :
    ∀ s : State, s.cancelled = true → (exec env s more).cancelled = true := by
  induction more with
  | nil => intro s h; exact h
  | cons a rest ih =>
    intro s h
    exact ih (step env s a) (step_keeps_cancelled env s a h)

/-- The exchange is called with the context as it is at the call: cancelled or not. -/
theorem exchange_receives_context (env : Env) (s : State) (code : String)
    (h : s.pc = .exchange code) :
    (step env s .main).result = some (env.Exchange s.deref s.cancelled code) := by
  simp [step, stepMain, h, State.result]

/-- C5 (amended): in a run of `ExecuteFlow` in which the listener is bound and no request
has been handled, `ExecuteFlow` has not returned, the listener is still open and the
exchange has not been called; two steps of the foreground goroutine bring it to the
receive `<-code`. Cancelling the context changes none of this: after the cancellation
and whatever follows it short of a request, the context is cancelled and `ExecuteFlow`
still has not returned, the listener is open, the exchange has not been called and the
foreground goroutine is at (or two steps before) the receive. -/
theorem ExecuteFlow_waits_for_request (env : Env) (cancelled : Bool) (c : Config)
    (opts : List FlowOption) (sched : List Action)
    (hbound : (ExecuteFlow env cancelled c opts sched).listener ≠ none)
    (hreq : (ExecuteFlow env cancelled c opts sched).requests = []) :
    (ExecuteFlow env cancelled c opts sched).result = none ∧
    (ExecuteFlow env cancelled c opts sched).listenerOpen = true ∧
    exchangeCodes (ExecuteFlow env cancelled c opts sched).trace = [] ∧
    (exec env (ExecuteFlow env cancelled c opts sched) [.main, .main]).pc = .await ∧
    (∀ more : List Action, (∀ a ∈ more, ∀ r, a ≠ .request r) →
      (exec env (ExecuteFlow env cancelled c opts sched) (.cancel :: more)).cancelled = true ∧
      (exec env (ExecuteFlow env cancelled c opts sched) (.cancel :: more)).result = none ∧
      (exec env (ExecuteFlow env cancelled c opts sched) (.cancel :: more)).listenerOpen =
        true ∧
      exchangeCodes (exec env (ExecuteFlow env cancelled c opts sched)
        (.cancel :: more)).trace = [] ∧
      (exec env (exec env (ExecuteFlow env cancelled c opts sched) (.cancel :: more))
        [.main, .main]).pc = .await) := by
  have hinv := inv_ExecuteFlow env cancelled c opts sched
  generalize ExecuteFlow env cancelled c opts sched = s at hinv hbound hreq
  obtain ⟨h1, h2, h3, h4⟩ := waiting_of_no_request env c opts s hinv hbound hreq
  refine ⟨h1, h2, h3, h4, fun more hmore => ?_⟩
  have hall : ∀ a ∈ Action.cancel :: more, ∀ r, a ≠ .request r := by
    intro a ha r
    rcases List.mem_cons.mp ha with rfl | h
    · simp
    · exact hmore a h r
  obtain ⟨hb2, hr2⟩ := exec_keeps_no_request env (.cancel :: more) s hbound hreq hall
  have hinv2 := inv_exec env c opts (.cancel :: more) s hinv
  obtain ⟨k1, k2, k3, k4⟩ := waiting_of_no_request env c opts _ hinv2 hb2 hr2
  exact ⟨exec_keeps_cancelled env more (step env s .cancel) rfl, k1, k2, k3, k4⟩

/-! ## Client -/

/-- The body of `Client` in terms of the two results of `clientReadCache`. -/
theorem Client_eq (env : Env) (fs : FileSystem) (cancelled : Bool) (config : Config)
    (opts : List FlowOption) (sched : List Action) :
    Client env fs cancelled config opts sched =
      match (clientReadCache env fs (processOpts opts)).1.tok with
      | some t0 =>
        match env.TokenSource config cancelled t0 with
        | .ok tok =>
          { ret := some ⟨some ⟨config, tok⟩, some tok, none⟩, fs := fs, flow := none,
            trace := (clientReadCache env fs (processOpts opts)).2 ++ [.tokenSource t0] }
        | .error _ =>
          clientFlow env fs cancelled config opts sched
            (clientReadCache env fs (processOpts opts)).1
            ((clientReadCache env fs (processOpts opts)).2 ++ [.tokenSource t0])
      | none =>
        clientFlow env fs cancelled config opts sched
          (clientReadCache env fs (processOpts opts)).1
          (clientReadCache env fs (processOpts opts)).2 := rfl

/-- The working token of the specification is the `o.tok` that `Client` tests at line 79. -/
theorem workingToken_eq (env : Env) (fs : FileSystem) (opts : List FlowOption) :
    workingToken env fs opts = (clientReadCache env fs (processOpts opts)).1.tok := by
  obtain ⟨h1, -, h3, -⟩ := processOpts_eq_lastSet opts
  unfold workingToken clientReadCache
  rw [← h1, ← h3]
  cases (processOpts opts).filecache with
  | none => rfl
  | some c =>
    dsimp only
    cases c.Token env fs <;> rfl

/-- Reading the cache leaves the field `filecache` as it is. -/
theorem clientReadCache_filecache (env : Env) (fs : FileSystem) (o : options) :
    (clientReadCache env fs o).1.filecache = o.filecache := by
  unfold clientReadCache
  cases h : o.filecache with
  | none => exact h
  | some c =>
    dsimp only
    cases c.Token env fs
    · exact h
    · rfl

/-- Reading the cache is not a bind and not a cache write. -/
theorem clientReadCache_trace (env : Env) (fs : FileSystem) (o : options) :
    ∀ e ∈ (clientReadCache env fs o).2, e.isListen = false ∧ e.isCacheWrite = false := by
  unfold clientReadCache
  cases o.filecache with
  | none => simp
  | some c =>
    dsimp only
    cases c.Token env fs <;> simp [Event.isListen, Event.isCacheWrite]

/-- C1: when a working token exists and refreshing it succeeds with `t`, `Client` returns
the client built from `t`, the token `t` and a nil error; `ExecuteFlow` is not called, no
listener is bound, the cache is not written and the file system is unchanged. -/
theorem Client_reuses_working_token (env : Env) (fs : FileSystem) (cancelled : Bool)
    (config : Config) (opts : List FlowOption) (sched : List Action) (w t : Token)
    (hw : workingToken env fs opts = some w)
    (hr : env.TokenSource config cancelled w = .ok t) :
    (Client env fs cancelled config opts sched).ret =
      some ⟨some ⟨config, t⟩, some t, none⟩ ∧
    (Client env fs cancelled config opts sched).flow = none ∧
    (∀ e ∈ (Client env fs cancelled config opts sched).trace,
      e.isListen = false ∧ e.isCacheWrite = false) ∧
    (Client env fs cancelled config opts sched).fs = fs := by
  rw [workingToken_eq] at hw
  rw [Client_eq, hw]
  dsimp only
  rw [hr]
  refine ⟨rfl, rfl, ?_, rfl⟩
  intro e he
  rcases List.mem_append.mp he with h | h
  · exact clientReadCache_trace env fs (processOpts opts) e h
  · rw [List.mem_singleton] at h
    subst h
    exact ⟨rfl, rfl⟩

/-- No step of `ExecuteFlow` is a cache write. -/
theorem step_no_cacheWrite (env : Env) (s : State) (a : Action)
    (h : ∀ e ∈ s.trace, e.isCacheWrite = false) :
    ∀ e ∈ (step env s a).trace, e.isCacheWrite = false := by
  obtain ⟨opts1, o, cc, cpy, cfg, can, l, lo, srv, reqs, hs1, pc, tr⟩ := s
  dsimp only at h
  cases a with
  | main =>
    cases pc with
    | entry => exact h
    | listen =>
      simp only [step, stepMain]
      split <;>
      · intro e he
        rcases List.mem_append.mp he with h1 | h1
        · exact h e h1
        · rw [List.mem_singleton] at h1
          subst h1
          rfl
    | bound a0 =>
      simp only [step, stepMain, State.setRedirectURL]
      cases cfg <;>
      · intro e he
        rcases List.mem_append.mp he with h1 | h1
        · exact h e h1
        · rw [List.mem_singleton] at h1
          subst h1
          rfl
    | direct =>
      simp only [step, stepMain]
      intro e he
      simp only [List.mem_append, List.mem_cons, List.mem_singleton, List.not_mem_nil,
        or_false] at he
      rcases he with ((h1 | h1) | h1) | h1 | h1
      · exact h e h1
      · subst h1; rfl
      · rcases directBrowser_launch_or_print env _ _ e h1 with ⟨n, a, rfl⟩ | ⟨t, rfl⟩ <;> rfl
      · subst h1; rfl
      · subst h1; rfl
    | await => exact h
    | exchange code =>
      simp only [step, stepMain]
      intro e he
      simp only [List.mem_append, List.mem_cons, List.mem_singleton, List.not_mem_nil,
        or_false] at he
      rcases he with h1 | h1 | h1
      · exact h e h1
      · subst h1; rfl
      · subst h1; rfl
    | returned res => exact h
  | request r =>
    simp only [step]
    split
    · intro e he
      rcases List.mem_append.mp he with h1 | h1
      · exact h e h1
      · rw [List.mem_singleton] at h1
        subst h1
        rfl
    · exact h
  | deliver i =>
    simp only [step]
    split
    · split
      · split <;> exact h
      · exact h
    · exact h
  | cancel => exact h

theorem exec_no_cacheWrite (env : Env) (sched : List Action) :
    ∀ s : State, (∀ e ∈ s.trace, e.isCacheWrite = false) →
      ∀ e ∈ (exec env s sched).trace, e.isCacheWrite = false := by
  induction sched with
  | nil => intro s h; exact h
  | cons a rest ih =>
    intro s h
    exact ih (step env s a) (step_no_cacheWrite env s a h)

theorem ExecuteFlow_no_cacheWrite (env : Env) (cancelled : Bool) (c : Config)
    (opts : List FlowOption) (sched : List Action) :
    ∀ e ∈ (ExecuteFlow env cancelled c opts sched).trace, e.isCacheWrite = false :=
  exec_no_cacheWrite env sched _ (by simp [State.init])

/-- What lines 86-93 of `Client` do, by outcome of `ExecuteFlow`. -/
theorem clientFlow_cases (env : Env) (fs : FileSystem) (cancelled : Bool) (config : Config)
    (opts : List FlowOption) (sched : List Action) (o : options) (tr : List Event) :
    (clientFlow env fs cancelled config opts sched o tr).flow =
      some (ExecuteFlow env cancelled config opts sched) ∧
    ((ExecuteFlow env cancelled config opts sched).result = none →
      (clientFlow env fs cancelled config opts sched o tr).ret = none) ∧
    (∀ err, (ExecuteFlow env cancelled config opts sched).result = some (.error err) →
      (clientFlow env fs cancelled config opts sched o tr).ret = some ⟨none, none, some err⟩ ∧
      (clientFlow env fs cancelled config opts sched o tr).fs = fs ∧
      (clientFlow env fs cancelled config opts sched o tr).trace =
        tr ++ (ExecuteFlow env cancelled config opts sched).trace) ∧
    (∀ t, (ExecuteFlow env cancelled config opts sched).result = some (.ok t) →
      (clientFlow env fs cancelled config opts sched o tr).ret =
        some ⟨some ⟨config, t⟩, some t, none⟩ ∧
      (∀ c, o.filecache = some c →
        (clientFlow env fs cancelled config opts sched o tr).fs = (c.Write env fs t).2 ∧
        (clientFlow env fs cancelled config opts sched o tr).trace =
          tr ++ (ExecuteFlow env cancelled config opts sched).trace ++
            [.cacheWrite c.name t]) ∧
      (o.filecache = none →
        (clientFlow env fs cancelled config opts sched o tr).fs = fs ∧
        (clientFlow env fs cancelled config opts sched o tr).trace =
          tr ++ (ExecuteFlow env cancelled config opts sched).trace)) := by
  have hcc := (inv_ExecuteFlow env cancelled config opts sched).1
  unfold clientFlow
  dsimp only
  cases hres : (ExecuteFlow env cancelled config opts sched).result with
  | none => simp
  | some r =>
    cases r with
    | error err => simp
    | ok t =>
      cases hfc : o.filecache with
      | none => simp [hcc]
      | some c => simp [hcc]

/-- C2: with a file cache configured whose read fails and no token supplied, `Client`
calls `ExecuteFlow`; if that returns token `t`, the cache's `Write` is called exactly once,
with `t`, and `Client` returns the client built from `t`, the token `t` and a nil error. -/
theorem Client_cache_miss_runs_flow (env : Env) (fs : FileSystem) (cancelled : Bool)
    (config : Config) (opts : List FlowOption) (sched : List Action) (cache : TokenFileCache)
    (err : Error)
    (hcache : (processOpts opts).filecache = some cache)
    (hmiss : cache.Token env fs = .error err)
    (htok : (processOpts opts).tok = none) :
    (Client env fs cancelled config opts sched).flow =
      some (ExecuteFlow env cancelled config opts sched) ∧
    (∀ t, (ExecuteFlow env cancelled config opts sched).result = some (.ok t) →
      (Client env fs cancelled config opts sched).ret =
        some ⟨some ⟨config, t⟩, some t, none⟩ ∧
      (Client env fs cancelled config opts sched).trace.filter Event.isCacheWrite =
        [.cacheWrite cache.name t] ∧
      (Client env fs cancelled config opts sched).fs = (cache.Write env fs t).2) := by
  have hread : clientReadCache env fs (processOpts opts) =
      (processOpts opts, [.cacheRead cache.name false]) := by
    unfold clientReadCache
    rw [hcache]
    dsimp only
    rw [hmiss]
  rw [Client_eq, hread]
  dsimp only
  rw [htok]
  dsimp only
  obtain ⟨h1, -, -, h4⟩ := clientFlow_cases env fs cancelled config opts sched
    (processOpts opts) [.cacheRead cache.name false]
  refine ⟨h1, fun t ht => ?_⟩
  obtain ⟨h5, h6, -⟩ := h4 t ht
  obtain ⟨h7, h8⟩ := h6 cache hcache
  refine ⟨h5, ?_, h7⟩
  rw [h8, List.filter_append, List.filter_append]
  have hflow : (ExecuteFlow env cancelled config opts sched).trace.filter Event.isCacheWrite
      = [] := by
    rw [List.filter_eq_nil_iff]
    intro e he
    simp [ExecuteFlow_no_cacheWrite env cancelled config opts sched e he]
  rw [hflow]
  rfl

/-- C3: `Client` returns a non-nil error exactly when it called `ExecuteFlow` and that
returned an error; then it returns that error with a nil client and a nil token, and
writes nothing to the cache. In every other return it returns a client, its token and a
nil error, whatever the cache read, the refresh and the cache write did. -/
theorem Client_error_iff_flow_error (env : Env) (fs : FileSystem) (cancelled : Bool)
    (config : Config) (opts : List FlowOption) (sched : List Action) :
    (∀ err, (∃ r, (Client env fs cancelled config opts sched).ret = some r ∧
        r.err = some err) ↔
      (∃ s, (Client env fs cancelled config opts sched).flow = some s ∧
        s.result = some (.error err))) ∧
    (∀ s err, (Client env fs cancelled config opts sched).flow = some s →
      s.result = some (.error err) →
      (Client env fs cancelled config opts sched).ret = some ⟨none, none, some err⟩ ∧
      (∀ e ∈ (Client env fs cancelled config opts sched).trace, e.isCacheWrite = false) ∧
      (Client env fs cancelled config opts sched).fs = fs) ∧
    (∀ s t, (Client env fs cancelled config opts sched).flow = some s →
      s.result = some (.ok t) →
      (Client env fs cancelled config opts sched).ret =
        some ⟨some ⟨config, t⟩, some t, none⟩) ∧
    ((Client env fs cancelled config opts sched).flow = none →
      ∃ t, (Client env fs cancelled config opts sched).ret =
        some ⟨some ⟨config, t⟩, some t, none⟩) := by
  have hflowtr := ExecuteFlow_no_cacheWrite env cancelled config opts sched
  have hreadtr := clientReadCache_trace env fs (processOpts opts)
  -- what a call that reaches `ExecuteFlow` with options `o` and trace `tr` does
  have key : ∀ (o : options) (tr : List Event), (∀ e ∈ tr, e.isCacheWrite = false) →
      (∀ err, (∃ r, (clientFlow env fs cancelled config opts sched o tr).ret = some r ∧
          r.err = some err) ↔
        (∃ s, (clientFlow env fs cancelled config opts sched o tr).flow = some s ∧
          s.result = some (.error err))) ∧
      (∀ s err, (clientFlow env fs cancelled config opts sched o tr).flow = some s →
        s.result = some (.error err) →
        (clientFlow env fs cancelled config opts sched o tr).ret = some ⟨none, none, some err⟩ ∧
        (∀ e ∈ (clientFlow env fs cancelled config opts sched o tr).trace,
          e.isCacheWrite = false) ∧
        (clientFlow env fs cancelled config opts sched o tr).fs = fs) ∧
      (∀ s t, (clientFlow env fs cancelled config opts sched o tr).flow = some s →
        s.result = some (.ok t) →
        (clientFlow env fs cancelled config opts sched o tr).ret =
          some ⟨some ⟨config, t⟩, some t, none⟩) ∧
      ((clientFlow env fs cancelled config opts sched o tr).flow = none →
        ∃ t, (clientFlow env fs cancelled config opts sched o tr).ret =
          some ⟨some ⟨config, t⟩, some t, none⟩) := by
    intro o tr htr
    obtain ⟨h1, h2, h3, h4⟩ := clientFlow_cases env fs cancelled config opts sched o tr
    rw [h1]
    refine ⟨fun err => ⟨?_, ?_⟩, ?_, ?_, ?_⟩
    · rintro ⟨r, hr, herr⟩
      refine ⟨_, rfl, ?_⟩
      cases hres : (ExecuteFlow env cancelled config opts sched).result with
      | none => rw [h2 hres] at hr; cases hr
      | some res =>
        cases res with
        | error e0 =>
          rw [(h3 e0 hres).1] at hr
          cases hr
          cases herr
          rfl
        | ok t =>
          rw [(h4 t hres).1] at hr
          cases hr
          cases herr
    · rintro ⟨s, hs, hres⟩
      cases hs
      exact ⟨_, (h3 err hres).1, rfl⟩
    · intro s err hs hres
      cases hs
      obtain ⟨h5, h6, h7⟩ := h3 err hres
      refine ⟨h5, ?_, h6⟩
      rw [h7]
      intro e he
      rcases List.mem_append.mp he with h | h
      · exact htr e h
      · exact hflowtr e h
    · intro s t hs hres
      cases hs
      exact (h4 t hres).1
    · intro h
      cases h
  rw [Client_eq]
  cases htok : (clientReadCache env fs (processOpts opts)).1.tok with
  | none =>
    dsimp only
    exact key _ _ (fun e he => (hreadtr e he).2)
  | some t0 =>
    dsimp only
    cases href : env.TokenSource config cancelled t0 with
    | error e0 =>
      dsimp only
      refine key _ _ ?_
      intro e he
      rcases List.mem_append.mp he with h | h
      · exact (hreadtr e h).2
      · rw [List.mem_singleton] at h
        subst h
        rfl
    | ok t =>
      dsimp only
      refine ⟨fun err => ⟨?_, ?_⟩, ?_, ?_, fun _ => ⟨t, rfl⟩⟩
      · rintro ⟨r, hr, herr⟩
        cases hr
        cases herr
      · rintro ⟨s, hs, -⟩
        cases hs
      · intro s err hs
        cases hs
      · intro s t1 hs
        cases hs

/-! ## TokenFileCache -/

theorem decodeString_encodeString (s : String) (rest : List Nat) :
    decodeString (encodeString s ++ rest) = some (s, rest) := by
  have hlen : s.length = (s.toList.map Char.toNat).length := by
    rw [List.length_map]
    rfl
  have hnot : ¬ (s.toList.map Char.toNat ++ rest).length < s.length := by
    rw [List.length_append, ← hlen]
    omega
  simp only [encodeString, List.cons_append, decodeString]
  rw [if_neg hnot, hlen, List.take_left, List.drop_left, List.map_map]
  have hid : (Char.ofNat ∘ Char.toNat) = id := by
    funext c
    exact Char.ofNat_toNat c
  rw [hid, List.map_id]
  rfl

theorem expiry_sign (e : Int) :
    (if (if e < 0 then 1 else 0 : Nat) = 1 then -(e.natAbs : Int) else (e.natAbs : Int)) = e := by
  by_cases h : e < 0
  · rw [if_pos h, if_pos rfl, Int.ofNat_natAbs_of_nonpos (le_of_lt h), neg_neg]
  · rw [if_neg h, if_neg (by decide), Int.natAbs_of_nonneg (not_lt.mp h)]

theorem gobDecodeValue_gobValue (t : Token) (rest : List Nat) :
    gobDecodeValue (gobValue t ++ rest) = .ok { t with raw := [] } := by
  unfold gobDecodeValue gobValue
  simp only [List.append_assoc, decodeString_encodeString]
  simp only [List.cons_append, List.nil_append]
  rw [expiry_sign]

/-- Decoding the stream of a token gives its exported fields and an empty `raw`. -/
theorem gobDecode_gobValue (t : Token) :
    gobDecode (gobTypes ++ gobValue t) = .ok { t with raw := [] } := by
  unfold gobDecode
  rw [List.take_left, List.drop_left, if_pos rfl]
  have h := gobDecodeValue_gobValue t []
  rw [List.append_nil] at h
  exact h

/-- A successful `Write(t)` leaves the stream of `t` in the file, whatever it held. -/
theorem Write_ok_file (env : Env) (fs : FileSystem) (c : TokenFileCache) (t : Token)
    (hw : (c.Write env fs t).1 = none) :
    (c.Write env fs t).2 c.name = some (gobTypes ++ gobValue t) := by
  unfold TokenFileCache.Write at hw ⊢
  cases hcr : env.osCreate c.name with
  | some e =>
    rw [hcr] at hw
    cases hw
  | none =>
    rw [hcr] at hw
    dsimp only at hw ⊢
    unfold gobEncode at hw ⊢
    cases henc : env.gobValueErr t with
    | some e =>
      rw [henc] at hw
      cases hw
    | none => simp [FileSystem.write]

/-- C9 (amended): whatever the file held before, if `Write(t)` succeeds then `Token()` on
a cache with the same name succeeds and returns `t` with an empty `raw`: a token equal to
`t` in the exported fields `AccessToken`, `TokenType`, `RefreshToken` and `Expiry`. It is
equal to `t` in all fields exactly when `t.raw` is empty. -/
theorem TokenFileCache_round_trip (env : Env) (fs : FileSystem) (c c2 : TokenFileCache)
    (t : Token) (hname : c2.name = c.name)
    (hw : (c.Write env fs t).1 = none) :
    c2.Token env (c.Write env fs t).2 = .ok { t with raw := [] } ∧
    (c2.Token env (c.Write env fs t).2 = .ok t ↔ t.raw = []) := by
  have hread : c2.Token env (c.Write env fs t).2 = .ok { t with raw := [] } := by
    unfold TokenFileCache.Token
    rw [hname, Write_ok_file env fs c t hw]
    dsimp only
    rw [gobDecode_gobValue]
  refine ⟨hread, ?_⟩
  rw [hread]
  constructor
  · intro h
    have h2 := congrArg (fun r => match r with
      | Except.ok (tok : Token) => tok.raw
      | Except.error _ => []) h
    exact h2.symm
  · intro h
    obtain ⟨a1, a2, a3, a4, a5⟩ := t
    dsimp only at h
    rw [h]

/-! ## The theorems at concrete inputs -/

/-- C9 (as stated) fails: the token the exchange returns is written to an absent file,
the write succeeds, and the token read back has lost `raw` and differs from the one
written. -/
theorem TokenFileCache_round_trip_counterexample :
    ((NewTokenFileCache "tok.gob").Write sampleEnv emptyFS (exchangedToken "ABC123")).1 =
      none ∧
    (NewTokenFileCache "tok.gob").Token sampleEnv
      ((NewTokenFileCache "tok.gob").Write sampleEnv emptyFS (exchangedToken "ABC123")).2 =
        .ok { exchangedToken "ABC123" with raw := [] } ∧
    (NewTokenFileCache "tok.gob").Token sampleEnv
      ((NewTokenFileCache "tok.gob").Write sampleEnv emptyFS (exchangedToken "ABC123")).2 ≠
        .ok (exchangedToken "ABC123") := by
  decide

theorem TokenFileCache_round_trip_witness :
    ((NewTokenFileCache "tok.gob").Write sampleEnv staleFS (exchangedToken "ABC123")).1 =
      none ∧
    (NewTokenFileCache "tok.gob").Token sampleEnv
      ((NewTokenFileCache "tok.gob").Write sampleEnv staleFS (exchangedToken "ABC123")).2 =
        .ok { exchangedToken "ABC123" with raw := [] } :=
  ⟨by decide,
   (TokenFileCache_round_trip sampleEnv staleFS (NewTokenFileCache "tok.gob")
     (NewTokenFileCache "tok.gob") (exchangedToken "ABC123") rfl (by decide)).1⟩

theorem Client_reuses_working_token_witness :
    workingToken sampleEnv cachedFS [.WithTokenFileCache "tok.gob"] = some sampleToken ∧
    sampleEnv.TokenSource sampleConfig false sampleToken =
      .ok { sampleToken with AccessToken := "AT-refreshed" } ∧
    (Client sampleEnv cachedFS false sampleConfig [.WithTokenFileCache "tok.gob"] []).ret =
      some ⟨some ⟨sampleConfig, { sampleToken with AccessToken := "AT-refreshed" }⟩,
        some { sampleToken with AccessToken := "AT-refreshed" }, none⟩ ∧
    (Client sampleEnv cachedFS false sampleConfig [.WithTokenFileCache "tok.gob"] []).flow =
      none :=
  ⟨by decide, by decide,
   (Client_reuses_working_token sampleEnv cachedFS false sampleConfig
     [.WithTokenFileCache "tok.gob"] [] sampleToken
     { sampleToken with AccessToken := "AT-refreshed" } (by decide) (by decide)).1,
   (Client_reuses_working_token sampleEnv cachedFS false sampleConfig
     [.WithTokenFileCache "tok.gob"] [] sampleToken
     { sampleToken with AccessToken := "AT-refreshed" } (by decide) (by decide)).2.1⟩

theorem Client_cache_miss_runs_flow_witness :
    (processOpts [.WithTokenFileCache "tok.gob"]).filecache =
      some (NewTokenFileCache "tok.gob") ∧
    (NewTokenFileCache "tok.gob").Token sampleEnv emptyFS =
      .error "open tok.gob: no such file or directory" ∧
    (processOpts [.WithTokenFileCache "tok.gob"]).tok = none ∧
    (ExecuteFlow sampleEnv false sampleConfig [.WithTokenFileCache "tok.gob"]
      twoRequests).result = some (.ok (exchangedToken "ABC123")) ∧
    (Client sampleEnv emptyFS false sampleConfig [.WithTokenFileCache "tok.gob"]
      twoRequests).trace.filter Event.isCacheWrite =
        [.cacheWrite "tok.gob" (exchangedToken "ABC123")] :=
  ⟨by decide, by decide, by decide, by decide,
   ((Client_cache_miss_runs_flow sampleEnv emptyFS false sampleConfig
     [.WithTokenFileCache "tok.gob"] twoRequests (NewTokenFileCache "tok.gob")
     "open tok.gob: no such file or directory" (by decide) (by decide) (by decide)).2
     (exchangedToken "ABC123") (by decide)).2.1⟩

theorem ExecuteFlow_exchanges_first_code_witness :
    (ExecuteFlow sampleEnv false sampleConfig [] twoRequests).requests ≠ [] ∧
    (ExecuteFlow sampleEnv false sampleConfig [] twoRequests).handoffs.length ≤ 1 ∧
    exchangeCodes (ExecuteFlow sampleEnv false sampleConfig [] twoRequests).trace =
      ["ABC123"] :=
  ⟨by decide,
   (ExecuteFlow_exchanges_first_code sampleEnv false sampleConfig [] twoRequests
     (by decide)).2.1,
   by decide⟩

theorem ExecuteFlow_closes_listener_witness :
    (ExecuteFlow sampleEnv false sampleConfig [] twoRequests).result =
      some (.ok (exchangedToken "ABC123")) ∧
    (ExecuteFlow sampleEnv false sampleConfig [] twoRequests).listenerOpen = false ∧
    (ExecuteFlow sampleEnv false sampleConfig [] twoRequests).trace.count .close = 1 :=
  ⟨by decide, by decide,
   (ExecuteFlow_closes_listener sampleEnv false sampleConfig [] twoRequests
     (.ok (exchangedToken "ABC123")) (by decide)).elim
     (fun h => by
       obtain ⟨err, h1, -⟩ := h
       rw [show sampleEnv.netListen (processOpts []).addr = .ok "127.0.0.1:49152" from
         by decide] at h1
       cases h1)
     (fun h => by
       obtain ⟨a, b, code, -, -, -, -, -, h6⟩ := h
       exact h6)⟩

theorem ExecuteFlow_redirect_url_witness :
    sampleEnv.netListen (processOpts []).addr = .ok "127.0.0.1:49152" ∧
    usedConfigs (ExecuteFlow sampleEnv false sampleConfig [] twoRequests).trace =
      [redirected sampleConfig "127.0.0.1:49152", redirected sampleConfig "127.0.0.1:49152"] ∧
    (redirected sampleConfig "127.0.0.1:49152").RedirectURL = "http://127.0.0.1:49152/" :=
  ⟨by decide,
   (ExecuteFlow_redirect_url sampleEnv false sampleConfig [] twoRequests "127.0.0.1:49152"
     (by decide)).2.2 (.ok (exchangedToken "ABC123")) (by decide),
   by decide⟩

/-- C5 (as stated) fails: the listener is bound at `127.0.0.1:49152`, no request is
received, the context is cancelled, and after two more steps of the foreground goroutine
`ExecuteFlow` has not returned: it is still in the receive `<-code`, where a further step
changes nothing, and the listener is still open. -/
theorem ExecuteFlow_cancel_counterexample :
    (ExecuteFlow sampleEnv false sampleConfig [] cancelledWait).listener =
      some "127.0.0.1:49152" ∧
    (ExecuteFlow sampleEnv false sampleConfig [] cancelledWait).requests = [] ∧
    (ExecuteFlow sampleEnv false sampleConfig [] cancelledWait).cancelled = true ∧
    (ExecuteFlow sampleEnv false sampleConfig [] cancelledWait).pc = .await ∧
    (ExecuteFlow sampleEnv false sampleConfig [] cancelledWait).result = none ∧
    (ExecuteFlow sampleEnv false sampleConfig [] cancelledWait).listenerOpen = true ∧
    step sampleEnv (ExecuteFlow sampleEnv false sampleConfig [] cancelledWait) .main =
      ExecuteFlow sampleEnv false sampleConfig [] cancelledWait := by
  decide

theorem ExecuteFlow_waits_for_request_witness :
    (ExecuteFlow sampleEnv false sampleConfig [] cancelledWait).listener ≠ none ∧
    (ExecuteFlow sampleEnv false sampleConfig [] cancelledWait).requests = [] ∧
    (ExecuteFlow sampleEnv false sampleConfig [] cancelledWait).result = none :=
  ⟨by decide, by decide,
   (ExecuteFlow_waits_for_request sampleEnv false sampleConfig [] cancelledWait
     (by decide) (by decide)).1⟩

end Floauth
